import Mathlib

/-!
# popsimu: parameter-sweep expansion, result collection and event scheduling

A shallow embedding of

* `cmd/popconfig_create/main.go` (`create`),
* `cmd/popsimu2/main.go` (`init`, `main`, `calculateResults`, `generatePopConfigs`,
  `createPops`, `randomGenerateAncestor`),
* `pop/single_moran_test.go` (`runOnePop`),

together with the properties their specification states about them.

Conventions.

* Go `int` is the 64-bit two's-complement integer: values are `Int`, and every
  arithmetic result is reduced with `wrapInt64`.
* `float64` values are only stored and copied by the embedded tools, so they are
  elements of a type parameter `F`. In `runOnePop` the `float64` operations the code
  applies are the fields of a `FloatOps` record, whatever their rounding; the selection
  of `Emit`, which the specification states on numbers, is computed in a linear ordered
  field `R`.
* A Go `for _, x := range xs` loop is a `List.foldl` over `xs`; a counting loop
  `for i := a; i < b; i++` whose body does not assign `i` is a `List.foldl` over
  `List.range' a (b - a)`; `append(s, x)` is `s ++ [x]`.
* Functions of the `pop` and `simu` packages whose bodies are not part of the
  embedded files are fields of a `Lib` record; the state they act on is passed
  explicitly, as one worker sees it.
* A Go panic is `none` (or `Except.error`).
* Random values are given from outside: by the library record in `popsimu2`, by a
  record of draws in `runOnePop`.
-/

namespace Popsimu

/-! ## Machine integers -/

/-- Reduction of an integer to the range of a Go `int` (64-bit, two's complement). -/
def wrapInt64 (x : Int) : Int := (x + 2 ^ 63) % 2 ^ 64 - 2 ^ 63

/-- Go `a * b` on `int`. -/
def goMul (a b : Int) : Int := wrapInt64 (a * b)

/-- Go `a + b` on `int`. -/
def goAdd (a b : Int) : Int := wrapInt64 (a + b)

/-- The values a Go `int` can hold. -/
def InInt64 (x : Int) : Prop := -(2 ^ 63) ≤ x ∧ x < 2 ^ 63

instance (x : Int) : Decidable (InInt64 x) := by
  unfold InInt64; exact inferInstance

/-- Number of iterations of `for i := 0; i < n; i++`. -/
def loopCount (n : Int) : Nat := n.toNat

/-! ## Data model (`pop.Config`) -/

/-- A Go `byte`. -/
abbrev Byte := Fin 256

/-- The `Mutation` part of a `pop.Config`. -/
structure MutationConfig (F : Type) where
  Rate : F
deriving DecidableEq, Repr

/-- One direction (`In` or `Out`) of the `Transfer` part of a `pop.Config`. -/
structure TransferSide (F : Type) where
  Rate : F
  Fragment : Int
deriving DecidableEq, Repr

/-- The `Transfer` part of a `pop.Config`. -/
structure TransferConfig (F : Type) where
  In : TransferSide F
  Out : TransferSide F
deriving DecidableEq, Repr

/-- Modelled from the spec: the record `pop.Config`, whose declaration is in the `pop`
package: `{Size, Length, Mutation.Rate, Transfer.In.{Rate,Fragment},
Transfer.Out.{Rate,Fragment}, Alphabet, NumGen}`. -/
structure Config (F : Type) where
  Size : Int
  Length : Int
  Mutation : MutationConfig F
  Transfer : TransferConfig F
  Alphabet : List Byte
  NumGen : Int
deriving DecidableEq, Repr

/-- The Go zero value `pop.Config{}`. -/
def Config.zero {F : Type} (z : F) : Config F :=
  { Size := 0, Length := 0, Mutation := ⟨z⟩, Transfer := ⟨⟨z, 0⟩, ⟨z, 0⟩⟩,
    Alphabet := [], NumGen := 0 }

/-- The parameter sweep `ParameterSet` (the same fields in both tools; the alphabet is a
`string` in `popconfig_create` and a `[]byte` in `popsimu2`, in both cases a byte
sequence). -/
structure ParameterSet (F : Type) where
  Sizes : List Int
  Lengths : List Int
  MutationRates : List F
  TransferInRates : List F
  TransferInFrags : List Int
  TransferOutRates : List F
  TransferOutFrags : List Int
  Alphabet : List Byte
deriving DecidableEq, Repr

/-- The Go zero value `ParameterSet{}`. -/
def ParameterSet.zero (F : Type) : ParameterSet F :=
  ⟨[], [], [], [], [], [], [], []⟩

/-! ## `popconfig_create`: `create` -/

namespace ConfigCreate

/-- The body of the innermost loop of `create` up to `append`: the Config built from one
tuple of axis values. -/
def mkConfig {F : Type} (par : ParameterSet F) (size length : Int) (mutation : F)
    (transferInRate : F) (transferInFrag : Int) (transferOutRate : F)
    (transferOutFrag : Int) : Config F :=
  { Size := size
    Length := length
    Mutation := ⟨mutation⟩
    Transfer := ⟨⟨transferInRate, transferInFrag⟩, ⟨transferOutRate, transferOutFrag⟩⟩
    Alphabet := par.Alphabet
    NumGen := goMul (goMul size size) 10 }

/-- The function `create` of `popconfig_create`; the package variable `rep` is passed
explicitly. -/
def create {F : Type} (par : ParameterSet F) (rep : Int) : List (Config F) :=
  par.Sizes.foldl (fun cfgs size =>
    par.Lengths.foldl (fun cfgs length =>
      par.MutationRates.foldl (fun cfgs mutation =>
        par.TransferInRates.foldl (fun cfgs transferInRate =>
          par.TransferInFrags.foldl (fun cfgs transferInFrag =>
            par.TransferOutRates.foldl (fun cfgs transferOutRate =>
              par.TransferOutFrags.foldl (fun cfgs transferOutFrag =>
                (List.range (loopCount rep)).foldl (fun cfgs _ =>
                  cfgs ++ [mkConfig par size length mutation transferInRate
                    transferInFrag transferOutRate transferOutFrag])
                  cfgs) cfgs) cfgs) cfgs) cfgs) cfgs) cfgs) []

/-- The specification's reading of a sweep: the Cartesian product of the seven axes in
lexicographic order, `Sizes` outermost and `TransferOutFrags` innermost, each tuple
emitted `rep` times in a row, with `NumGen` the Go value of `10 * Size * Size`. -/
def createSpec {F : Type} (par : ParameterSet F) (rep : Int) : List (Config F) :=
  par.Sizes.flatMap fun size =>
  par.Lengths.flatMap fun length =>
  par.MutationRates.flatMap fun mutation =>
  par.TransferInRates.flatMap fun transferInRate =>
  par.TransferInFrags.flatMap fun transferInFrag =>
  par.TransferOutRates.flatMap fun transferOutRate =>
  par.TransferOutFrags.flatMap fun transferOutFrag =>
  List.replicate rep.toNat
    { Size := size
      Length := length
      Mutation := ⟨mutation⟩
      Transfer := ⟨⟨transferInRate, transferInFrag⟩, ⟨transferOutRate, transferOutFrag⟩⟩
      Alphabet := par.Alphabet
      NumGen := goMul (goMul 10 size) size }

end ConfigCreate

/-! ## State-passing helpers

Calls into the `pop` and `simu` packages and into `math/rand` read and update state that
the embedded code does not see (the populations behind the `*pop.Pop` pointers, the
random sources). That state is a value `w : σ` passed through every call. -/

/-- Run `f` on every element in order, passing the state along and collecting the
results. -/
def mapState {α β σ : Type} (f : α → σ → β × σ) : List α → σ → List β × σ
  | [], w => ([], w)
  | x :: xs, w =>
    let r := f x w
    let rs := mapState f xs r.2
    (r.1 :: rs.1, rs.2)

/-- Run `f` on every element in order, passing the state along and concatenating the
results. -/
def flatMapState {α β σ : Type} (f : α → σ → List β × σ) : List α → σ → List β × σ
  | [], w => ([], w)
  | x :: xs, w =>
    let r := f x w
    let rs := flatMapState f xs r.2
    (r.1 ++ rs.1, rs.2)

/-- The variant of `flatMapState` for a step that may fail: the first failure (a Go
panic) ends the run. -/
def flatMapStateOpt {α β σ : Type} (f : α → σ → Option (List β × σ)) :
    List α → σ → Option (List β × σ)
  | [], w => some ([], w)
  | x :: xs, w =>
    match f x w with
    | none => none
    | some r =>
      match flatMapStateOpt f xs r.2 with
      | none => none
      | some rs => some (r.1 ++ rs.1, rs.2)

/-! ## `popsimu2` -/

namespace Simu2

/-- A `pop.Sequence`: a byte slice. -/
abbrev Sequence := List Byte

/-- The record `CalcRes` of `popsimu2`. -/
structure CalcRes (F : Type) where
  Index : List Int
  Ks : F
  Vd : F
  NumGen : Int
deriving DecidableEq, Repr

/-- The record `Results` of `popsimu2`. -/
structure Results (F : Type) where
  PopConfigs : List (Config F)
  CalcResults : List (CalcRes F)
deriving DecidableEq, Repr

/-- The functions `popsimu2` calls whose bodies are outside the embedded files.
`σ` is the state they act on, `P` the type of `*pop.Pop` pointers (its `default` is
`nil`) and `G` the type of population generators.

* `Intn n` is `rand.Intn(n)` for `n > 0`;
* `NewSimplePopGenerator`, `NewPop` (`cfg.NewPop(generator)`), `CalcKs` and `CrossKs` are
  the functions of package `pop`, `RunMoran` is `simu.RunMoran`, which updates the
  populations in place and returns nothing. -/
structure Lib (σ P G F : Type) where
  Intn : Nat → σ → Nat × σ
  NewSimplePopGenerator : Sequence → G
  NewPop : Config F → G → σ → P × σ
  RunMoran : List P → List (Config F) → Int → σ → σ
  CalcKs : P → σ → (F × F) × σ
  CrossKs : P → P → σ → (F × F) × σ

/-- The innermost loop body of `generatePopConfigs`: unlike `create` it leaves `NumGen`
at its zero value. -/
def mkConfig {F : Type} (par : ParameterSet F) (size length : Int) (mutation : F)
    (transferInRate : F) (transferInFrag : Int) (transferOutRate : F)
    (transferOutFrag : Int) : Config F :=
  { Size := size
    Length := length
    Mutation := ⟨mutation⟩
    Transfer := ⟨⟨transferInRate, transferInFrag⟩, ⟨transferOutRate, transferOutFrag⟩⟩
    Alphabet := par.Alphabet
    NumGen := 0 }

/-- The seven nested `range` loops of `generatePopConfigs` for one parameter set: the
value of `cfgs` when it is appended to `popCfgs`. -/
def expandLoop {F : Type} (par : ParameterSet F) : List (Config F) :=
  par.Sizes.foldl (fun cfgs size =>
    par.Lengths.foldl (fun cfgs length =>
      par.MutationRates.foldl (fun cfgs mutation =>
        par.TransferInRates.foldl (fun cfgs transferInRate =>
          par.TransferInFrags.foldl (fun cfgs transferInFrag =>
            par.TransferOutRates.foldl (fun cfgs transferOutRate =>
              par.TransferOutFrags.foldl (fun cfgs transferOutFrag =>
                cfgs ++ [mkConfig par size length mutation transferInRate
                  transferInFrag transferOutRate transferOutFrag])
                cfgs) cfgs) cfgs) cfgs) cfgs) cfgs) []

/-- The first loop of `generatePopConfigs`: the final value of `popCfgs`. -/
def popCfgsLoop {F : Type} (parSets : List (ParameterSet F)) : List (List (Config F)) :=
  (List.range parSets.length).foldl (fun popCfgs i =>
    let par := parSets.getD i (ParameterSet.zero F)
    popCfgs ++ [expandLoop par]) []

/-- The second loop of `generatePopConfigs`: the final value of `combinations`. -/
def combinationsLoop {F : Type} (popCfgs : List (List (Config F))) :
    List (List (Config F)) :=
  (List.range popCfgs.length).foldl (fun combinations i =>
    let set1 := popCfgs.getD i []
    (List.range' (i + 1) (popCfgs.length - (i + 1))).foldl (fun combinations j =>
      let set2 := popCfgs.getD j []
      set1.foldl (fun combinations cfg1 =>
        set2.foldl (fun combinations cfg2 =>
          combinations ++ [[cfg1, cfg2]]) combinations) combinations) combinations) []

/-- The function `generatePopConfigs` of `popsimu2`. -/
def generatePopConfigs {F : Type} (parSets : List (ParameterSet F)) :
    List (List (Config F)) :=
  combinationsLoop (popCfgsLoop parSets)

/-- The specification's per-set expansion `E_i`: the Cartesian product of the seven axes
in lexicographic order. -/
def expandSpec {F : Type} (par : ParameterSet F) : List (Config F) :=
  par.Sizes.flatMap fun size =>
  par.Lengths.flatMap fun length =>
  par.MutationRates.flatMap fun mutation =>
  par.TransferInRates.flatMap fun transferInRate =>
  par.TransferInFrags.flatMap fun transferInFrag =>
  par.TransferOutRates.flatMap fun transferOutRate =>
  par.TransferOutFrags.map fun transferOutFrag =>
    { Size := size
      Length := length
      Mutation := ⟨mutation⟩
      Transfer := ⟨⟨transferInRate, transferInFrag⟩, ⟨transferOutRate, transferOutFrag⟩⟩
      Alphabet := par.Alphabet
      NumGen := 0 }

/-- The index pairs `(i, j)` with `i < j < k`, in increasing (lexicographic) order. -/
def indexPairs (k : Nat) : List (Nat × Nat) :=
  (List.product (List.range k) (List.range k)).filter fun ij => decide (ij.1 < ij.2)

/-- The pairs `[c1, c2]` with `c1` from `set1` (outer loop) and `c2` from `set2` (inner
loop). -/
def pairBlock {F : Type} (set1 set2 : List (Config F)) : List (List (Config F)) :=
  set1.flatMap fun c1 => set2.map fun c2 => [c1, c2]

/-- The specification's reading of `generatePopConfigs`: over every index pair `i < j`
in increasing order, the block of pairs of `E_i` and `E_j`. -/
def generatePopConfigsSpec {F : Type} (parSets : List (ParameterSet F)) :
    List (List (Config F)) :=
  let E := parSets.map expandSpec
  (indexPairs E.length).flatMap fun ij => pairBlock (E.getD ij.1 []) (E.getD ij.2 [])

/-- The function `calculateResults` of `popsimu2`. -/
def calculateResults {σ P G F : Type} [Inhabited P] (lib : Lib σ P G F) (pops : List P)
    (numGen : Int) (w : σ) : List (CalcRes F) × σ :=
  (List.range pops.length).foldl (fun (st : List (CalcRes F) × σ) i =>
    let p1 := pops.getD i default
    let r := lib.CalcKs p1 st.2
    let res : CalcRes F := { Index := [(i : Int)], Ks := r.1.1, Vd := r.1.2, NumGen := numGen }
    (List.range' (i + 1) (pops.length - (i + 1))).foldl
      (fun (st : List (CalcRes F) × σ) j =>
        let p2 := pops.getD j default
        let r := lib.CrossKs p1 p2 st.2
        let res : CalcRes F :=
          { Index := [(i : Int), (j : Int)], Ks := r.1.1, Vd := r.1.2, NumGen := numGen }
        (st.1 ++ [res], r.2))
      (st.1 ++ [res], r.2)) ([], w)

/-- The order in which the specification lists the entries of one snapshot of `p`
populations: `[0], [0,1], ..., [0,p-1], [1], [1,2], ..., [p-1]`. -/
def indexOrder (p : Nat) : List (List Nat) :=
  (List.range p).flatMap fun i =>
    [i] :: (List.range' (i + 1) (p - (i + 1))).map fun j => [i, j]

/-- The measurement the specification attaches to an index set: `CalcKs(pops[i])` for
`[i]`, `CrossKs(pops[i], pops[j])` for `[i, j]`, taken at generation count `numGen`. -/
def measure {σ P G F : Type} [Inhabited P] (lib : Lib σ P G F) (pops : List P)
    (numGen : Int) (idx : List Nat) (w : σ) : CalcRes F × σ :=
  match idx with
  | [i, j] =>
    let r := lib.CrossKs (pops.getD i default) (pops.getD j default) w
    ({ Index := idx.map Int.ofNat, Ks := r.1.1, Vd := r.1.2, NumGen := numGen }, r.2)
  | _ =>
    let r := lib.CalcKs (pops.getD (idx.headD 0) default) w
    ({ Index := idx.map Int.ofNat, Ks := r.1.1, Vd := r.1.2, NumGen := numGen }, r.2)

/-- The function `randomGenerateAncestor` of `popsimu2`. `none` is a Go panic: `make`
with a negative length, or `rand.Intn(0)` for an empty alphabet. -/
def randomGenerateAncestor {σ P G F : Type} (lib : Lib σ P G F) (size : Int)
    (alphbets : List Byte) (w : σ) : Option (Sequence × σ) :=
  if size < 0 then none
  else
    (List.range (loopCount size)).foldl (fun (st : Option (Sequence × σ)) i =>
      match st with
      | none => none
      | some (s, w) =>
        if alphbets.length = 0 then none
        else
          let r := lib.Intn alphbets.length w
          some (s.set i (alphbets.getD (r.1 % alphbets.length) 0), r.2))
      (some (List.replicate (loopCount size) 0, w))

/-- The function `createPops` of `popsimu2`. `none` is a Go panic: `cfgs[0]` on an empty
combination, or a panic of `randomGenerateAncestor`. -/
def createPops {σ P G F : Type} [Inhabited P] [Inhabited F] (lib : Lib σ P G F)
    (cfgs : List (Config F)) (w : σ) : Option (List P × σ) :=
  match cfgs with
  | [] => none
  | c0 :: _ =>
    let genomeSize := c0.Length
    let alphabet := c0.Alphabet
    match randomGenerateAncestor lib genomeSize alphabet w with
    | none => none
    | some (ancestor, w1) =>
      let generator := lib.NewSimplePopGenerator ancestor
      some ((List.range cfgs.length).foldl (fun (st : List P × σ) i =>
        let r := lib.NewPop (cfgs.getD i (Config.zero default)) generator st.2
        (st.1.set i r.1, r.2)) (List.replicate cfgs.length default, w1))

/-- The body of the chunk loop `for i := 0; i < genTime; i++` of a worker: the loop state
is `res`, the state behind the populations, and `numGen`. -/
def chunkStep {σ P G F : Type} [Inhabited P] (lib : Lib σ P G F) (pops : List P)
    (comb : List (Config F)) (genStep : Int) (st : Results F × σ × Int) :
    Results F × σ × Int :=
  let w := lib.RunMoran pops comb genStep st.2.1
  let numGen := goAdd st.2.2 genStep
  let r := calculateResults lib pops numGen w
  ({ st.1 with CalcResults := st.1.CalcResults ++ r.1 }, r.2, numGen)

/-- The body of the replicate loop `for j := 0; j < numRep; j++` of a worker: fresh
populations, `numGen := 0`, then the chunk loop. `none` is a Go panic. -/
def replicateStep {σ P G F : Type} [Inhabited P] [Inhabited F] (lib : Lib σ P G F)
    (genStep genTime : Int) (comb : List (Config F)) (st : Option (Results F × σ)) :
    Option (Results F × σ) :=
  match st with
  | none => none
  | some (res, w) =>
    match createPops lib comb w with
    | none => none
    | some (pops, w) =>
      let inner := (List.range (loopCount genTime)).foldl
        (fun (st : Results F × σ × Int) _ => chunkStep lib pops comb genStep st) (res, w, 0)
      some (inner.1, inner.2.1)

/-- The body of a worker goroutine of `main` for one job `comb`: the value of `res` when
it is sent on `resultChan`. The package variables `numRep`, `genStep` and `genTime` are
passed explicitly; `none` is a Go panic. -/
def worker {σ P G F : Type} [Inhabited P] [Inhabited F] (lib : Lib σ P G F)
    (numRep genStep genTime : Int) (comb : List (Config F)) (w : σ) :
    Option (Results F × σ) :=
  (List.range (loopCount numRep)).foldl
    (fun (st : Option (Results F × σ)) _ => replicateStep lib genStep genTime comb st)
    (some ({ PopConfigs := comb, CalcResults := [] }, w))

/-- The `t`-th chunk of a replicate as the specification describes it: advance the
populations by `genStep` generations, then record `calculateResults(pops, t * genStep)`. -/
def chunkSpec {σ P G F : Type} [Inhabited P] (lib : Lib σ P G F) (pops : List P)
    (comb : List (Config F)) (genStep : Int) (t : Nat) (w : σ) : List (CalcRes F) × σ :=
  calculateResults lib pops (goMul (t : Int) genStep) (lib.RunMoran pops comb genStep w)

/-- One replicate as the specification describes it: fresh populations, then the chunks
`t = 1..genTime` in order. -/
def replicateSpec {σ P G F : Type} [Inhabited P] [Inhabited F] (lib : Lib σ P G F)
    (genStep genTime : Int) (comb : List (Config F)) (_j : Nat) (w : σ) :
    Option (List (CalcRes F) × σ) :=
  match createPops lib comb w with
  | none => none
  | some (pops, w1) =>
    some (flatMapState (chunkSpec lib pops comb genStep)
      (List.range' 1 (loopCount genTime)) w1)

/-- The Result of a job as the specification describes it: the replicates
`j = 1..numRep` in order. -/
def workerSpec {σ P G F : Type} [Inhabited P] [Inhabited F] (lib : Lib σ P G F)
    (numRep genStep genTime : Int) (comb : List (Config F)) (w : σ) :
    Option (Results F × σ) :=
  match flatMapStateOpt (replicateSpec lib genStep genTime comb)
      (List.range' 1 (loopCount numRep)) w with
  | none => none
  | some r => some ({ PopConfigs := comb, CalcResults := r.1 }, r.2)

/-- The combinations on which `createPops` does not panic: a first Config exists, its
`Length` is not negative, and its alphabet is not empty unless no site is drawn. -/
def CreatePopsOk {F : Type} (cfgs : List (Config F)) : Prop :=
  match cfgs with
  | [] => False
  | c0 :: _ => 0 ≤ c0.Length ∧ (c0.Alphabet ≠ [] ∨ c0.Length = 0)

/-- Modelled from the spec: the generator `pop.NewSimplePopGenerator(ancestor)` and the
method `cfg.NewPop(generator)` of package `pop`, which build a population "by copying a
shared ancestor sequence N times", `N` being the Config's `Size`. A population is the list
of its sequences, the `nil` population is empty, and the generator is the ancestor. -/
def specLib {σ F : Type} (Intn : Nat → σ → Nat × σ)
    (RunMoran : List (List Sequence) → List (Config F) → Int → σ → σ)
    (CalcKs : List Sequence → σ → (F × F) × σ)
    (CrossKs : List Sequence → List Sequence → σ → (F × F) × σ) :
    Lib σ (List Sequence) Sequence F :=
  { Intn := Intn
    NewSimplePopGenerator := fun ancestor => ancestor
    NewPop := fun cfg generator w => (List.replicate cfg.Size.toNat generator, w)
    RunMoran := RunMoran
    CalcKs := CalcKs
    CrossKs := CrossKs }

end Simu2

/-! ## `popsimu2`: output file and result loop -/

namespace Simu2

/-- A Config the specification calls physically inconsistent: a population size that is
zero or negative, or a transfer fragment longer than the sequence. -/
def Inconsistent {F : Type} (c : Config F) : Prop :=
  c.Size ≤ 0 ∨ c.Length < c.Transfer.In.Fragment ∨ c.Length < c.Transfer.Out.Fragment

instance {F : Type} (c : Config F) : Decidable (Inconsistent c) := by
  unfold Inconsistent; exact inferInstance

/-- The state of a file made by `os.Create`: the records encoded into it so far, and
whether it has been closed. -/
structure FileState (F : Type) where
  data : List (Results F)
  closed : Bool
deriving DecidableEq, Repr

/-- The part of the process state that `init` and the result loop of `main` act on. An
`*os.File` is an index into `files`.

* `outfile` is the package variable `outfile` (`none` is `nil`);
* `encoder` is the package variable `encoder`, given by the file its writer is (`none`
  is `nil`). -/
structure Proc (F : Type) where
  files : List (FileState F)
  outfile : Option Nat
  encoder : Option Nat
deriving DecidableEq, Repr

/-- The process state when `init` starts: no file, both package variables `nil`. -/
def Proc.start (F : Type) : Proc F := ⟨[], none, none⟩

/-- The call `os.Create` when it succeeds: a new, empty, open file. -/
def osCreate {F : Type} (st : Proc F) : Nat × Proc F :=
  (st.files.length, { st with files := st.files ++ [⟨[], false⟩] })

/-- The method `(*os.File).Close`. -/
def fileClose {F : Type} (f : Nat) (st : Proc F) : Proc F :=
  { st with files := st.files.modify (fun fs => { fs with closed := true }) f }

/-- The method `(*os.File).Write` for one encoded record; the flag is `true` when the
call returns an error, which it does on a closed file, leaving the file as it is. -/
def fileWrite {F : Type} (f : Nat) (res : Results F) (st : Proc F) : Proc F × Bool :=
  match st.files.get? f with
  | none => (st, true)
  | some fs =>
    if fs.closed then (st, true)
    else
      ({ st with files := st.files.modify (fun fs => { fs with data := fs.data ++ [res] }) f },
        false)

/-- The method `(*os.File).Sync`; `true` when it returns an error, which it does on a
`nil` receiver (`os.ErrInvalid`) and on a closed file. -/
def fileSyncFails {F : Type} (f : Option Nat) (st : Proc F) : Bool :=
  match f with
  | none => true
  | some h =>
    match st.files.get? h with
    | none => true
    | some fs => fs.closed

/-- The file part of the function `init` of `popsimu2`; `createOk` tells whether
`os.Create` succeeds and `none` is the `panic(err)` when it does not. The statement
`outfile, err := os.Create(outFilePath)` declares two variables local to `init`, so the
package variable `outfile` is not assigned; `encoder = json.NewEncoder(outfile)` assigns
the package variable `encoder`; the deferred `outfile.Close()` runs when `init`
returns. -/
def init {F : Type} (createOk : Bool) (st : Proc F) : Option (Proc F) :=
  if createOk then
    let r := osCreate st
    let outfileLocal := r.1
    let st1 := { r.2 with encoder := some outfileLocal }
    some (fileClose outfileLocal st1)
  else none

/-- One round of the result loop of `main`: `encoder.Encode(res)`, whose error is
dropped, then `outfile.Sync()` on the package variable, with `panic(err)` on an error.
`Except.error` is a panic and carries the state it happens in. -/
def writeResult {F : Type} (res : Results F) (st : Proc F) : Except (Proc F) (Proc F) :=
  match st.encoder with
  | none => .error st
  | some f =>
    let st1 := (fileWrite f res st).1
    if fileSyncFails st1.outfile st1 then .error st1 else .ok st1

/-- The loop `for res := range resultChan` of `main`, on the Results in the order in
which they arrive. -/
def resultLoop {F : Type} : List (Results F) → Proc F → Except (Proc F) (Proc F)
  | [], st => .ok st
  | res :: rest, st =>
    match writeResult res st with
    | .error e => .error e
    | .ok st1 => resultLoop rest st1

/-- The program `popsimu2` from `init` to the end of `main` when one worker goroutine
runs (`ncpu = 1`): the jobs are the combinations in the order of
`popConfigCombinations`, the worker handles them one after the other, and every Result
it sends is written by the result loop. A panic of the worker is `Except.error` too. -/
def mainOneWorker {σ P G F : Type} [Inhabited P] [Inhabited F] (lib : Lib σ P G F)
    (numRep genStep genTime : Int) (createOk : Bool) (parSets : List (ParameterSet F))
    (w : σ) : Except (Proc F) (Proc F × σ) :=
  match init createOk (Proc.start F) with
  | none => .error (Proc.start F)
  | some st0 =>
    (generatePopConfigs parSets).foldl (fun (acc : Except (Proc F) (Proc F × σ)) comb =>
      match acc with
      | .error e => .error e
      | .ok (st, w) =>
        match worker lib numRep genStep genTime comb w with
        | none => .error st
        | some (res, w1) =>
          match writeResult res st with
          | .error e => .error e
          | .ok st1 => .ok (st1, w1)) (.ok (st0, w))

end Simu2

namespace Simu2

instance {F : Type} (cfgs : List (Config F)) : Decidable (CreatePopsOk cfgs) := by
  unfold CreatePopsOk
  split <;> exact inferInstance

/-- An instance of the library on which the embedded code can be run on examples: rates
and statistics are natural numbers, the state counts the calls of `rand.Intn`, whose
`k`-th call returns `k mod n`; populations are built as in `specLib`, `RunMoran` leaves
the state as it is and both statistics are `(0, 0)`. -/
def counterLib : Lib Nat (List Sequence) Sequence Nat :=
  specLib (fun n w => (w % n, w + 1)) (fun _ _ _ w => w) (fun _ w => ((0, 0), w))
    (fun _ _ w => ((0, 0), w))

end Simu2

/-! ## `pop`: the event stream of `runOnePop` -/

namespace Pop

/-- The operators `runOnePop` binds to its events, by the constructor call that makes
them: `NewMoranSampler(r)`, `NewSimpleMutator(r, alphabet)` and
`NewSimpleTransfer(NewConstantFrag(frag), r)`. -/
inductive Operator where
  | moranSampler
  | simpleMutator (alphabet : List Byte)
  | simpleTransfer (frag : Int)
deriving DecidableEq, Repr

/-- Modelled from the spec: the record `Event` of package `pop`, "a (rate, operator,
target population) triple", with the field names `Rate`, `Ops` and `Pop` that
`runOnePop` uses. `R` is the type of rates and `Q` the type of `*Pop` pointers. -/
structure Event (R Q : Type) where
  Rate : R
  Ops : Operator
  Pop : Q
deriving DecidableEq, Repr

/-- Modelled from the spec: the walk of `Emit` along the candidates, which looks for "the
event whose cumulative-rate interval contains" the uniform value `u`: `acc` is the sum of
the rates passed so far, and the interval of a candidate `e` is
`[acc / total, (acc + e.Rate) / total)`. -/
def emitFrom {R Q : Type} [LinearOrderedField R] (total u : R) :
    List (Event R Q) → R → Option (Event R Q)
  | [], _ => none
  | e :: es, acc =>
    if acc / total ≤ u ∧ u < (acc + e.Rate) / total then some e
    else emitFrom total u es (acc + e.Rate)

/-- Modelled from the spec: the function `Emit` of package `pop`, which "performs
rate-weighted selection: normalize rates to a cumulative distribution over candidates,
draw one uniform value, return the event whose cumulative-rate interval contains it",
so that "events with zero rate are never selected". `u` is the uniform value drawn, in
`[0, 1)`; the result is a `*Event`, `none` being `nil`, returned when no interval
contains `u`. The specification states the selection on numbers, so the sums and
quotients here are those of an ordered field. -/
def Emit {R Q : Type} [LinearOrderedField R] (events : List (Event R Q)) (u : R) :
    Option (Event R Q) :=
  emitFrom (events.map fun e => e.Rate).sum u events 0

/-- The random values the goroutine of `runOnePop` obtains: `poisson mean g` is the
result of the `g`-th call of `poisson.Int()`, a Poisson count, for a generator made by
`random.NewPoisson(mean, src)`; `uniform n` is the uniform value drawn by the `n`-th call
of `Emit`. Calls are counted from 0. -/
structure Draws (R : Type) where
  poisson : R → Nat → Nat
  uniform : Nat → R

/-- The variable `alphabet` of `runOnePop`. -/
def alphabet : List Byte := [1, 2, 3, 4]

/-- The variable `moranEvent` of `runOnePop`; its `Rate` is left at the zero value. -/
def moranEvent {R Q : Type} [LinearOrderedField R] (p : Q) : Event R Q :=
  { Rate := 0, Ops := Operator.moranSampler, Pop := p }

/-- The variable `mutationEvent` of `runOnePop`. -/
def mutationEvent {R Q : Type} (p : Q) (mutRate : R) : Event R Q :=
  { Rate := mutRate, Ops := Operator.simpleMutator alphabet, Pop := p }

/-- The variable `transferEvent` of `runOnePop`. -/
def transferEvent {R Q : Type} (p : Q) (traRate : R) (frag : Int) : Event R Q :=
  { Rate := traRate, Ops := Operator.simpleTransfer frag, Pop := p }

/-- The `float64` operations `runOnePop` applies to its rates, each with whatever
rounding the machine performs: the conversion `float64(n)` of an `int`, the sum `x + y`
and the product `x * y`. -/
structure FloatOps (R : Type) where
  ofInt : Int → R
  add : R → R → R
  mul : R → R → R

/-- The operations of the rationals, which round nothing: an instance of `FloatOps` on
which the embedded code can be run on examples. -/
def exactOps : FloatOps ℚ :=
  { ofInt := fun n => (n : ℚ), add := fun x y => x + y, mul := fun x y => x * y }

/-- The mean `float64(genomeLen)*(mutRate+traRate)` given to `random.NewPoisson`,
computed with the `float64` operations `fl`. -/
def poissonMean {R : Type} (fl : FloatOps R) (genomeLen : Int) (mutRate traRate : R) : R :=
  fl.mul (fl.ofInt genomeLen) (fl.add mutRate traRate)

/-- The events the goroutine of `runOnePop` sends on `eventChan`, in order, before it
closes the channel: this is the stream `Evolve` consumes. `p` is the population made by
`New()`. The loop state is the list of events sent so far and the number of calls of
`Emit` made so far. -/
def eventStream {R Q : Type} [LinearOrderedField R] (fl : FloatOps R) (p : Q)
    (genomeLen : Int)
    (mutRate traRate : R) (frag numGen : Int) (draws : Draws R) :
    List (Option (Event R Q)) :=
  ((List.range (loopCount numGen)).foldl (fun (st : List (Option (Event R Q)) × Nat) k =>
    let sent := st.1 ++ [some (moranEvent p)]
    let count := draws.poisson (poissonMean fl genomeLen mutRate traRate) k
    (List.range count).foldl (fun (st : List (Option (Event R Q)) × Nat) _ =>
      (st.1 ++ [Emit [mutationEvent p mutRate, transferEvent p traRate frag]
        (draws.uniform st.2)], st.2 + 1)) (sent, st.2)) ([], 0)).1

/-- The number of calls of `Emit` made before generation `g`. -/
def emitCallsBefore {R : Type} (draws : Draws R) (mean : R) (g : Nat) : Nat :=
  ((List.range g).map (draws.poisson mean)).sum

/-- The block of generation `g` as the specification describes it: the Moran event, then
`k_g` molecular events, each the result of `Emit` on the candidates
`{mutationEvent, transferEvent}`, `k_g` being the Poisson count of the generation. -/
def generationBlock {R Q : Type} [LinearOrderedField R] (fl : FloatOps R) (p : Q)
    (genomeLen : Int)
    (mutRate traRate : R) (frag : Int) (draws : Draws R) (g : Nat) :
    List (Option (Event R Q)) :=
  some (moranEvent p) ::
    (List.range (draws.poisson (poissonMean fl genomeLen mutRate traRate) g)).map fun c =>
      Emit [mutationEvent p mutRate, transferEvent p traRate frag]
        (draws.uniform (emitCallsBefore draws (poissonMean fl genomeLen mutRate traRate) g + c))

end Pop

/-! ## Loop lemmas -/

/-- A loop that appends `f x` to its accumulator for every `x` computes a `flatMap`. -/
theorem foldl_append_flatMap {α β : Type} (g : List β → α → List β) (f : α → List β)
    (h : ∀ acc x, g acc x = acc ++ f x) (xs : List α) (acc : List β) :
    xs.foldl g acc = acc ++ xs.flatMap f := by
  induction xs generalizing acc with
  | nil => simp
  | cons x xs ih => simp [List.foldl_cons, h, ih, List.flatMap_cons, List.append_assoc]

/-- A loop that appends the same element on each of `n` rounds appends `n` copies. -/
theorem foldl_range_append_replicate {β : Type} (c : β) (n : Nat) (acc : List β) :
    (List.range n).foldl (fun cfgs _ => cfgs ++ [c]) acc = acc ++ List.replicate n c := by
  induction n with
  | zero => simp
  | succ n ih =>
    rw [List.range_succ, List.foldl_append, ih]
    simp [List.replicate_succ', List.append_assoc]

/-- The length of a `flatMap` whose pieces all have the same length. -/
theorem length_flatMap_const {α β : Type} (f : α → List β) (n : Nat) (xs : List α)
    (h : ∀ x, (f x).length = n) : (xs.flatMap f).length = xs.length * n := by
  induction xs with
  | nil => simp
  | cons x xs ih => simp [List.flatMap_cons, h, ih, Nat.succ_mul, Nat.add_comm]

/-- Wrapping is invariant under wrapping a factor first. -/
theorem wrapInt64_emod (x : Int) : wrapInt64 x % 2 ^ 64 = x % 2 ^ 64 := by
  unfold wrapInt64
  omega

/-- Two integers congruent modulo `2 ^ 64` wrap to the same Go `int`. -/
theorem wrapInt64_congr {x y : Int} (h : x % 2 ^ 64 = y % 2 ^ 64) :
    wrapInt64 x = wrapInt64 y := by
  unfold wrapInt64
  omega

/-- Wrapping leaves the values of a Go `int` unchanged. -/
theorem wrapInt64_of_inInt64 {x : Int} (h : InInt64 x) : wrapInt64 x = x := by
  unfold InInt64 at h
  unfold wrapInt64
  omega

/-- A product of two wrapped products is the wrapped exact product. -/
theorem goMul_goMul_left (a b c : Int) : goMul (goMul a b) c = wrapInt64 (a * b * c) := by
  unfold goMul
  apply wrapInt64_congr
  rw [Int.mul_emod, wrapInt64_emod, ← Int.mul_emod]

/-- The order in which Go evaluates `size * size * 10` and `10 * size * size` does not
matter. -/
theorem goMul_size_comm (size : Int) :
    goMul (goMul size size) 10 = goMul (goMul 10 size) size := by
  rw [goMul_goMul_left, goMul_goMul_left]
  congr 1
  ring

/-! ## `create` -/

namespace ConfigCreate

/-- The loops of `create` compute the lexicographic Cartesian product, each tuple
repeated `rep` times. -/
theorem create_eq_flatMap {F : Type} (par : ParameterSet F) (rep : Int) :
    create par rep =
      par.Sizes.flatMap fun size =>
      par.Lengths.flatMap fun length =>
      par.MutationRates.flatMap fun mutation =>
      par.TransferInRates.flatMap fun transferInRate =>
      par.TransferInFrags.flatMap fun transferInFrag =>
      par.TransferOutRates.flatMap fun transferOutRate =>
      par.TransferOutFrags.flatMap fun transferOutFrag =>
      List.replicate (loopCount rep)
        (mkConfig par size length mutation transferInRate transferInFrag
          transferOutRate transferOutFrag) := by
  unfold create
  rw [foldl_append_flatMap _ _ _ par.Sizes [], List.nil_append]
  intro acc size
  apply foldl_append_flatMap
  intro acc length
  apply foldl_append_flatMap
  intro acc mutation
  apply foldl_append_flatMap
  intro acc transferInRate
  apply foldl_append_flatMap
  intro acc transferInFrag
  apply foldl_append_flatMap
  intro acc transferOutRate
  apply foldl_append_flatMap
  intro acc transferOutFrag
  exact foldl_range_append_replicate _ _ _

/-- C2. For every parameter set `par` and every `rep` (in particular every `rep ≥ 0`),
`create` returns the reference list: the full Cartesian product of the seven axes in
lexicographic order (`Sizes` outermost, `TransferOutFrags` innermost), each tuple emitted
as `rep` consecutive identical Configs carrying the tuple's components, the alphabet of
`par`, and `NumGen = 10 * Size * Size` (a Go `int`: the exact product reduced to 64 bits,
which is the exact product whenever that is a Go `int`). -/
theorem create_eq_createSpec {F : Type} (par : ParameterSet F) (rep : Int) :
    create par rep = createSpec par rep ∧
      ∀ c ∈ create par rep, c.NumGen = wrapInt64 (10 * c.Size * c.Size) ∧
        (InInt64 (10 * c.Size * c.Size) → c.NumGen = 10 * c.Size * c.Size) ∧
        c.Alphabet = par.Alphabet := by
  have hmk : ∀ size length mutation transferInRate transferInFrag transferOutRate
      transferOutFrag,
      mkConfig par size length mutation transferInRate transferInFrag transferOutRate
        transferOutFrag =
      ({ Size := size
         Length := length
         Mutation := ⟨mutation⟩
         Transfer := ⟨⟨transferInRate, transferInFrag⟩, ⟨transferOutRate, transferOutFrag⟩⟩
         Alphabet := par.Alphabet
         NumGen := goMul (goMul 10 size) size } : Config F) := by
    intros
    simp only [mkConfig, goMul_size_comm]
  refine ⟨?_, ?_⟩
  · rw [create_eq_flatMap]
    simp only [hmk, createSpec, loopCount]
  · intro c hc
    rw [create_eq_flatMap] at hc
    simp only [List.mem_flatMap, List.mem_replicate] at hc
    obtain ⟨size, -, length, -, mutation, -, tir, -, tif, -, tor, -, tof, -, -, rfl⟩ := hc
    have hw : goMul (goMul size size) 10 = wrapInt64 (10 * size * size) := by
      rw [goMul_goMul_left]
      congr 1
      ring
    exact ⟨hw, fun hin => hw.trans (wrapInt64_of_inInt64 hin), rfl⟩

/-- C1. For every parameter set `par` and every replicate count `rep ≥ 0`, `create`
returns exactly `|Sizes| * |Lengths| * |MutationRates| * |TransferInRates| *
|TransferInFrags| * |TransferOutRates| * |TransferOutFrags| * rep` Configs. -/
theorem create_length {F : Type} (par : ParameterSet F) (rep : Int) (hrep : 0 ≤ rep) :
    ((create par rep).length : Int) =
      (par.Sizes.length : Int) * par.Lengths.length * par.MutationRates.length *
        par.TransferInRates.length * par.TransferInFrags.length *
        par.TransferOutRates.length * par.TransferOutFrags.length * rep := by
  have hlen : (create par rep).length =
      par.Sizes.length * (par.Lengths.length * (par.MutationRates.length *
        (par.TransferInRates.length * (par.TransferInFrags.length *
          (par.TransferOutRates.length * (par.TransferOutFrags.length *
            loopCount rep)))))) := by
    rw [create_eq_flatMap]
    apply length_flatMap_const; intro size
    apply length_flatMap_const; intro length
    apply length_flatMap_const; intro mutation
    apply length_flatMap_const; intro transferInRate
    apply length_flatMap_const; intro transferInFrag
    apply length_flatMap_const; intro transferOutRate
    apply length_flatMap_const; intro transferOutFrag
    exact List.length_replicate _ _
  rw [hlen]
  have hr : ((loopCount rep : Nat) : Int) = rep := Int.toNat_of_nonneg hrep
  push_cast
  rw [hr]
  ring

/-- The Config count of `create` on a sweep with 2 sizes, 1 length, 3 mutation rates and
2 transfer-out fragments, at 2 replicates. -/
theorem create_length_witness :
    (0 : Int) ≤ 2 ∧
    ((create (F := Nat) ⟨[10, 20], [100], [1, 2, 3], [0], [5], [0], [5, 6], [1, 2]⟩ 2).length
      : Int) = 24 :=
  ⟨by decide, by
    have h := create_length (F := Nat) ⟨[10, 20], [100], [1, 2, 3], [0], [5], [0], [5, 6],
      [1, 2]⟩ 2 (by decide)
    simpa using h⟩

end ConfigCreate

/-! ## `generatePopConfigs` -/

/-- A loop that appends one element per round computes a `map`. -/
theorem foldl_append_map {α β : Type} (f : α → β) (xs : List α) (acc : List β) :
    xs.foldl (fun cfgs x => cfgs ++ [f x]) acc = acc ++ xs.map f := by
  induction xs generalizing acc with
  | nil => simp
  | cons x xs ih => simp [List.foldl_cons, ih, List.append_assoc]

/-- Reading a slice at every index in order gives the slice back. -/
theorem map_getD_range {α β : Type} (f : α → β) (xs : List α) (d : α) :
    (List.range xs.length).map (fun i => f (xs.getD i d)) = xs.map f := by
  apply List.ext_getElem
  · simp
  · intro n h₁ h₂
    simp only [List.length_map, List.length_range] at h₁
    simp [h₁]

/-- The indices of `range k` above `i` are `i+1, ..., k-1`. -/
theorem filter_lt_range (i k : Nat) :
    (List.range k).filter (fun j => decide (i < j)) = List.range' (i + 1) (k - (i + 1)) := by
  induction k with
  | zero => simp
  | succ k ih =>
    rw [List.range_succ, List.filter_append, ih]
    by_cases h : i < k
    · have e : k + 1 - (i + 1) = (k - (i + 1)) + 1 := by omega
      rw [e, List.range'_concat]
      have e2 : i + 1 + 1 * (k - (i + 1)) = k := by omega
      simp only [h, decide_True, List.filter_cons_of_pos, List.filter_nil]
      rw [e2]
    · have e : k + 1 - (i + 1) = 0 := by omega
      have e2 : k - (i + 1) = 0 := by omega
      simp [h, e, e2]

/-- Shifting a range by one. -/
theorem range'_succ_eq_map (s n : Nat) :
    List.range' (s + 1) n = (List.range' s n).map Nat.succ := by
  have h := List.map_add_range' 1 s n 1
  rw [Nat.add_comm 1 s] at h
  rw [← h]
  apply List.map_congr_left
  intro a _
  omega

namespace Simu2

/-- The seven loops of `generatePopConfigs` compute the specification's expansion. -/
theorem expandLoop_eq_expandSpec {F : Type} (par : ParameterSet F) :
    expandLoop par = expandSpec par := by
  unfold expandLoop expandSpec
  rw [foldl_append_flatMap _ _ _ par.Sizes [], List.nil_append]
  intro acc size
  apply foldl_append_flatMap
  intro acc length
  apply foldl_append_flatMap
  intro acc mutation
  apply foldl_append_flatMap
  intro acc transferInRate
  apply foldl_append_flatMap
  intro acc transferInFrag
  apply foldl_append_flatMap
  intro acc transferOutRate
  exact foldl_append_map _ _ _

/-- After the first loop `popCfgs[i]` is the expansion of `parSets[i]`. -/
theorem popCfgsLoop_eq_map {F : Type} (parSets : List (ParameterSet F)) :
    popCfgsLoop parSets = parSets.map expandSpec := by
  unfold popCfgsLoop
  simp only [expandLoop_eq_expandSpec]
  rw [foldl_append_map (fun i => expandSpec (parSets.getD i (ParameterSet.zero F))),
    List.nil_append]
  exact map_getD_range expandSpec parSets _

/-- The two innermost loops of the pairing phase append one block of pairs. -/
theorem pairLoop_eq {F : Type} (set1 set2 : List (Config F))
    (acc : List (List (Config F))) :
    set1.foldl (fun combinations cfg1 =>
      set2.foldl (fun combinations cfg2 => combinations ++ [[cfg1, cfg2]]) combinations)
      acc = acc ++ pairBlock set1 set2 := by
  unfold pairBlock
  apply foldl_append_flatMap
  intro acc cfg1
  exact foldl_append_map _ _ _

/-- The pairing phase as a concatenation of blocks over the index pairs `i < j`. -/
theorem combinationsLoop_eq {F : Type} (E : List (List (Config F))) :
    combinationsLoop E =
      (List.range E.length).flatMap fun i =>
        (List.range' (i + 1) (E.length - (i + 1))).flatMap fun j =>
          pairBlock (E.getD i []) (E.getD j []) := by
  unfold combinationsLoop
  rw [foldl_append_flatMap _ _ _ (List.range E.length) [], List.nil_append]
  intro acc i
  apply foldl_append_flatMap
  intro acc j
  exact pairLoop_eq _ _ _

/-- The index pairs, grouped by their first component. -/
theorem indexPairs_eq (k : Nat) :
    indexPairs k =
      (List.range k).flatMap fun i =>
        (List.range' (i + 1) (k - (i + 1))).map fun j => (i, j) := by
  unfold indexPairs
  rw [List.product.eq_1, List.filter_flatMap]
  congr 1
  funext i
  rw [List.filter_map, ← filter_lt_range]
  rfl

/-- The loops of `generatePopConfigs` compute the specification's list of pairs. -/
theorem generatePopConfigs_eq_spec {F : Type} (parSets : List (ParameterSet F)) :
    generatePopConfigs parSets = generatePopConfigsSpec parSets := by
  unfold generatePopConfigs generatePopConfigsSpec
  simp only []
  rw [popCfgsLoop_eq_map, combinationsLoop_eq, indexPairs_eq, List.flatMap_assoc]
  congr 1
  funext i
  rw [List.flatMap_map]

/-- The pairing phase, one parameter set at a time: the first set is paired with every
later one, then the later ones among themselves. -/
theorem combinationsLoop_cons {F : Type} (e : List (Config F))
    (E : List (List (Config F))) :
    combinationsLoop (e :: E) = E.flatMap (fun e2 => pairBlock e e2) ++ combinationsLoop E := by
  rw [combinationsLoop_eq, combinationsLoop_eq]
  simp only [List.length_cons]
  rw [List.range_succ_eq_map, List.flatMap_cons, List.flatMap_map]
  congr 1
  · simp only [Nat.zero_add, Nat.add_sub_cancel, List.getD_cons_zero]
    rw [range'_succ_eq_map, List.flatMap_map, ← List.range_eq_range']
    simp only [Nat.succ_eq_add_one, List.getD_cons_succ]
    rw [← List.flatMap_map (fun j => E.getD j []) (fun e2 => pairBlock e e2)]
    congr 1
    have h := map_getD_range (fun x => x) E []
    simpa using h
  · congr 1
    funext i
    simp only [Nat.succ_eq_add_one, List.getD_cons_succ]
    rw [range'_succ_eq_map, List.flatMap_map]
    simp only [Nat.succ_eq_add_one, List.getD_cons_succ, Nat.add_sub_add_right]

/-- The recursion of `generatePopConfigs` over its list of parameter sets. -/
theorem generatePopConfigs_cons {F : Type} (s : ParameterSet F)
    (rest : List (ParameterSet F)) :
    generatePopConfigs (s :: rest) =
      rest.flatMap (fun t => pairBlock (expandSpec s) (expandSpec t)) ++
        generatePopConfigs rest := by
  unfold generatePopConfigs
  rw [popCfgsLoop_eq_map, popCfgsLoop_eq_map, List.map_cons, combinationsLoop_cons,
    List.flatMap_map]

/-- The number of pairs in a block. -/
theorem length_pairBlock {F : Type} (set1 set2 : List (Config F)) :
    (pairBlock set1 set2).length = set1.length * set2.length := by
  unfold pairBlock
  apply length_flatMap_const
  intro c1
  exact List.length_map _ _

/-- The number of Configs of one expansion. -/
theorem length_expandSpec {F : Type} (par : ParameterSet F) :
    (expandSpec par).length =
      par.Sizes.length * (par.Lengths.length * (par.MutationRates.length *
        (par.TransferInRates.length * (par.TransferInFrags.length *
          (par.TransferOutRates.length * par.TransferOutFrags.length))))) := by
  unfold expandSpec
  apply length_flatMap_const; intro size
  apply length_flatMap_const; intro length
  apply length_flatMap_const; intro mutation
  apply length_flatMap_const; intro transferInRate
  apply length_flatMap_const; intro transferInFrag
  apply length_flatMap_const; intro transferOutRate
  exact List.length_map _ _

/-- Every combination of `generatePopConfigs` is a pair of Configs. -/
theorem length_of_mem_generatePopConfigs {F : Type} (parSets : List (ParameterSet F))
    (comb : List (Config F)) (hcomb : comb ∈ generatePopConfigs parSets) :
    comb.length = 2 := by
  rw [generatePopConfigs_eq_spec] at hcomb
  simp only [generatePopConfigsSpec, pairBlock, List.mem_flatMap, List.mem_map] at hcomb
  obtain ⟨_, _, c1, _, c2, _, rfl⟩ := hcomb
  rfl

/-- C3. For every list of parameter sets, `generatePopConfigs` returns the concatenation,
over every index pair `i < j` in increasing `(i, j)` order, of the pairs `[c1, c2]` for
every `c1` of the expansion `E_i` (outer loop) and every `c2` of `E_j` (inner loop), each
expansion having as many Configs as the product of its seven axis cardinalities; every
returned combination has exactly two Configs; and for exactly two parameter sets the
result is the full Cartesian product of Config pairs, with `n_0 * n_1` combinations. -/
theorem generatePopConfigs_pairs {F : Type} (parSets : List (ParameterSet F)) :
    generatePopConfigs parSets = generatePopConfigsSpec parSets ∧
    (∀ par : ParameterSet F, (expandSpec par).length =
      par.Sizes.length * (par.Lengths.length * (par.MutationRates.length *
        (par.TransferInRates.length * (par.TransferInFrags.length *
          (par.TransferOutRates.length * par.TransferOutFrags.length)))))) ∧
    (∀ comb ∈ generatePopConfigs parSets, comb.length = 2) ∧
    (∀ s0 s1 : ParameterSet F,
      generatePopConfigs [s0, s1] = pairBlock (expandSpec s0) (expandSpec s1) ∧
      (generatePopConfigs [s0, s1]).length =
        (expandSpec s0).length * (expandSpec s1).length) := by
  refine ⟨generatePopConfigs_eq_spec parSets, length_expandSpec, ?_, ?_⟩
  · exact length_of_mem_generatePopConfigs parSets
  · intro s0 s1
    have h : generatePopConfigs [s0, s1] = pairBlock (expandSpec s0) (expandSpec s1) := by
      rw [generatePopConfigs_cons, generatePopConfigs_cons]
      simp [generatePopConfigs, popCfgsLoop, combinationsLoop]
    exact ⟨h, by rw [h, length_pairBlock]⟩

end Simu2

namespace Simu2

/-- A block of pairs with an empty first set is empty. -/
theorem pairBlock_nil_left {F : Type} (set2 : List (Config F)) : pairBlock [] set2 = [] := rfl

/-- A block of pairs with an empty second set is empty. -/
theorem pairBlock_nil_right {F : Type} (set1 : List (Config F)) : pairBlock set1 [] = [] := by
  simp [pairBlock]

/-- An element that contributes nothing to a `flatMap` can be erased. -/
theorem flatMap_eraseIdx_of_nil {α β : Type} (f : α → List β) (xs : List α) (i : Nat)
    (x : α) (hx : xs[i]? = some x) (hf : f x = []) :
    xs.flatMap f = (xs.eraseIdx i).flatMap f := by
  induction xs generalizing i with
  | nil => simp
  | cons y ys ih =>
    cases i with
    | zero =>
      simp only [List.getElem?_cons_zero, Option.some.injEq] at hx
      subst hx
      simp [List.flatMap_cons, hf]
    | succ k =>
      simp only [List.getElem?_cons_succ] at hx
      simp only [List.eraseIdx_cons_succ, List.flatMap_cons]
      rw [ih k hx]

/-- A parameter set with an empty axis expands to no Config. -/
theorem expandSpec_eq_nil {F : Type} (par : ParameterSet F)
    (h : par.Sizes = [] ∨ par.Lengths = [] ∨ par.MutationRates = [] ∨
      par.TransferInRates = [] ∨ par.TransferInFrags = [] ∨ par.TransferOutRates = [] ∨
      par.TransferOutFrags = []) : expandSpec par = [] := by
  unfold expandSpec
  rcases h with h | h | h | h | h | h | h <;> simp [h]

/-- A parameter set that expands to no Config can be left out. -/
theorem generatePopConfigs_eraseIdx {F : Type} (parSets : List (ParameterSet F)) (i : Nat)
    (par : ParameterSet F) (hi : parSets[i]? = some par) (he : expandSpec par = []) :
    generatePopConfigs parSets = generatePopConfigs (parSets.eraseIdx i) := by
  induction parSets generalizing i with
  | nil => simp
  | cons s rest ih =>
    cases i with
    | zero =>
      simp only [List.getElem?_cons_zero, Option.some.injEq] at hi
      subst hi
      rw [generatePopConfigs_cons, he]
      simp [pairBlock_nil_left]
    | succ k =>
      simp only [List.getElem?_cons_succ] at hi
      rw [List.eraseIdx_cons_succ, generatePopConfigs_cons, generatePopConfigs_cons,
        ← ih k hi]
      congr 1
      exact flatMap_eraseIdx_of_nil _ rest k par hi (by rw [he, pairBlock_nil_right])

/-- C10. For a list of parameter sets of length 0 or 1, `generatePopConfigs` returns the
empty list whatever the axes are, so no job is dispatched and the result loop, which
gets no Result, writes nothing. More generally a parameter set with an empty axis
expands to no Config, and no combination involving it is produced: the result is that of
the list without this set. -/
theorem generatePopConfigs_no_job {F : Type} :
    generatePopConfigs ([] : List (ParameterSet F)) = [] ∧
    (∀ s : ParameterSet F, generatePopConfigs [s] = []) ∧
    (∀ (createOk : Bool) (st : Proc F), init createOk (Proc.start F) = some st →
      resultLoop [] st = .ok st ∧ ∀ fs ∈ st.files, fs.data = []) ∧
    (∀ (parSets : List (ParameterSet F)) (i : Nat) (par : ParameterSet F),
      parSets[i]? = some par →
      (par.Sizes = [] ∨ par.Lengths = [] ∨ par.MutationRates = [] ∨
        par.TransferInRates = [] ∨ par.TransferInFrags = [] ∨ par.TransferOutRates = [] ∨
        par.TransferOutFrags = []) →
      expandSpec par = [] ∧
      generatePopConfigs parSets = generatePopConfigs (parSets.eraseIdx i)) := by
  have h0 : generatePopConfigs ([] : List (ParameterSet F)) = [] := by
    simp [generatePopConfigs, popCfgsLoop, combinationsLoop]
  refine ⟨h0, ?_, ?_, ?_⟩
  · intro s
    rw [generatePopConfigs_cons, h0]
    simp
  · intro createOk st hst
    refine ⟨rfl, ?_⟩
    cases createOk with
    | false => simp [init] at hst
    | true =>
      simp only [init, if_true, Option.some.injEq] at hst
      subst hst
      simp [Proc.start, osCreate, fileClose, List.modify]
  · intro parSets i par hi hax
    have he := expandSpec_eq_nil par hax
    exact ⟨he, generatePopConfigs_eraseIdx parSets i par hi he⟩

/-- Membership in one expansion: a Config belongs to it exactly when each of its
components is a value of the corresponding axis. Nothing else is required of it. -/
theorem mem_expandSpec {F : Type} (par : ParameterSet F) (c : Config F) :
    c ∈ expandSpec par ↔
      c.Size ∈ par.Sizes ∧ c.Length ∈ par.Lengths ∧ c.Mutation.Rate ∈ par.MutationRates ∧
      c.Transfer.In.Rate ∈ par.TransferInRates ∧
      c.Transfer.In.Fragment ∈ par.TransferInFrags ∧
      c.Transfer.Out.Rate ∈ par.TransferOutRates ∧
      c.Transfer.Out.Fragment ∈ par.TransferOutFrags ∧
      c.Alphabet = par.Alphabet ∧ c.NumGen = 0 := by
  simp only [expandSpec, List.mem_flatMap, List.mem_map]
  constructor
  · rintro ⟨size, h1, length, h2, mutation, h3, tir, h4, tif, h5, tor, h6, tof, h7, rfl⟩
    exact ⟨h1, h2, h3, h4, h5, h6, h7, rfl, rfl⟩
  · rcases c with ⟨size, length, ⟨mutation⟩, ⟨⟨tir, tif⟩, ⟨tor, tof⟩⟩, alphabet, numGen⟩
    rintro ⟨h1, h2, h3, h4, h5, h6, h7, h8, h9⟩
    simp only at h1 h2 h3 h4 h5 h6 h7 h8 h9
    subst h8 h9
    exact ⟨size, h1, length, h2, mutation, h3, tir, h4, tif, h5, tor, h6, tof, h7, rfl⟩

end Simu2

namespace ConfigCreate

/-- Membership in the result of `create`: a Config is returned exactly when a replicate
is asked for and each of its components is a value of the corresponding axis. -/
theorem mem_create {F : Type} (par : ParameterSet F) (rep : Int) (c : Config F) :
    c ∈ create par rep ↔
      0 < rep ∧
      c.Size ∈ par.Sizes ∧ c.Length ∈ par.Lengths ∧ c.Mutation.Rate ∈ par.MutationRates ∧
      c.Transfer.In.Rate ∈ par.TransferInRates ∧
      c.Transfer.In.Fragment ∈ par.TransferInFrags ∧
      c.Transfer.Out.Rate ∈ par.TransferOutRates ∧
      c.Transfer.Out.Fragment ∈ par.TransferOutFrags ∧
      c.Alphabet = par.Alphabet ∧ c.NumGen = goMul (goMul c.Size c.Size) 10 := by
  rw [create_eq_flatMap]
  simp only [List.mem_flatMap, List.mem_replicate, loopCount]
  have hr : rep.toNat ≠ 0 ↔ 0 < rep := by omega
  constructor
  · rintro ⟨size, h1, length, h2, mutation, h3, tir, h4, tif, h5, tor, h6, tof, h7, h0, rfl⟩
    exact ⟨hr.mp h0, h1, h2, h3, h4, h5, h6, h7, rfl, rfl⟩
  · rcases c with ⟨size, length, ⟨mutation⟩, ⟨⟨tir, tif⟩, ⟨tor, tof⟩⟩, alphabet, numGen⟩
    rintro ⟨h0, h1, h2, h3, h4, h5, h6, h7, h8, h9⟩
    simp only at h1 h2 h3 h4 h5 h6 h7 h8 h9
    subst h8 h9
    exact ⟨size, h1, length, h2, mutation, h3, tir, h4, tif, h5, tor, h6, tof, h7,
      hr.mpr h0, rfl⟩

end ConfigCreate

namespace Simu2

/-- C4, as the code has it. Neither `create` nor `generatePopConfigs` has an error
result or checks a value: a Config is returned by `create` exactly when `rep > 0` and
each of its components is a value of the corresponding axis, and the combinations of
`generatePopConfigs` are exactly the pairs `[c1, c2]` of Configs of the expansions of two
sets `i < j`, a Config being in an expansion exactly when each of its components is a
value of the corresponding axis. So a Config with a zero or negative `Size`, or with a
fragment longer than its `Length`, is returned whenever the axes hold such values. -/
theorem configs_unvalidated {F : Type} :
    (∀ (par : ParameterSet F) (rep : Int) (c : Config F),
      c ∈ ConfigCreate.create par rep ↔
        0 < rep ∧
        c.Size ∈ par.Sizes ∧ c.Length ∈ par.Lengths ∧
        c.Mutation.Rate ∈ par.MutationRates ∧
        c.Transfer.In.Rate ∈ par.TransferInRates ∧
        c.Transfer.In.Fragment ∈ par.TransferInFrags ∧
        c.Transfer.Out.Rate ∈ par.TransferOutRates ∧
        c.Transfer.Out.Fragment ∈ par.TransferOutFrags ∧
        c.Alphabet = par.Alphabet ∧ c.NumGen = goMul (goMul c.Size c.Size) 10) ∧
    (∀ (parSets : List (ParameterSet F)) (comb : List (Config F)),
      comb ∈ generatePopConfigs parSets ↔
        ∃ i j c1 c2, i < j ∧ j < parSets.length ∧ comb = [c1, c2] ∧
          c1 ∈ expandSpec (parSets.getD i (ParameterSet.zero F)) ∧
          c2 ∈ expandSpec (parSets.getD j (ParameterSet.zero F))) ∧
    (∀ (par : ParameterSet F) (c : Config F),
      c ∈ expandSpec par ↔
        c.Size ∈ par.Sizes ∧ c.Length ∈ par.Lengths ∧
        c.Mutation.Rate ∈ par.MutationRates ∧
        c.Transfer.In.Rate ∈ par.TransferInRates ∧
        c.Transfer.In.Fragment ∈ par.TransferInFrags ∧
        c.Transfer.Out.Rate ∈ par.TransferOutRates ∧
        c.Transfer.Out.Fragment ∈ par.TransferOutFrags ∧
        c.Alphabet = par.Alphabet ∧ c.NumGen = 0) := by
  refine ⟨ConfigCreate.mem_create, ?_, mem_expandSpec⟩
  intro parSets comb
  rw [generatePopConfigs_eq_spec]
  simp only [generatePopConfigsSpec, indexPairs, List.mem_flatMap, List.mem_filter,
    List.pair_mem_product, List.mem_range, decide_eq_true_eq, pairBlock, List.mem_map,
    List.length_map, Prod.exists]
  have hget : ∀ k, k < parSets.length →
      (List.map expandSpec parSets).getD k [] =
        expandSpec (parSets.getD k (ParameterSet.zero F)) := by
    intro k hk
    rw [List.getD_eq_getElem _ _ (by simpa using hk), List.getD_eq_getElem _ _ hk]
    simp
  constructor
  · rintro ⟨i, j, ⟨⟨hi, hj⟩, hij⟩, c1, hc1, c2, hc2, rfl⟩
    rw [hget i hi] at hc1
    rw [hget j hj] at hc2
    exact ⟨i, j, c1, c2, hij, hj, rfl, hc1, hc2⟩
  · rintro ⟨i, j, c1, c2, hij, hj, rfl, hc1, hc2⟩
    have hi : i < parSets.length := Nat.lt_trans hij hj
    rw [← hget i hi] at hc1
    rw [← hget j hj] at hc2
    exact ⟨i, j, ⟨⟨hi, hj⟩, hij⟩, c1, hc1, c2, hc2, rfl⟩

/-- C4 fails as stated: on a sweep whose only size is 0 and whose fragments (5) exceed
its only length (1), `create` returns a Config with `Size = 0` and fragments longer than
its `Length`, and so does `generatePopConfigs` in a combination. -/
theorem inconsistent_config_returned :
    (∃ c ∈ ConfigCreate.create (F := Nat) ⟨[0], [1], [0], [0], [5], [0], [5], [65]⟩ 1,
      c.Size = 0 ∧ c.Length < c.Transfer.In.Fragment ∧ c.Length < c.Transfer.Out.Fragment ∧
      Inconsistent c) ∧
    (∃ comb ∈ generatePopConfigs (F := Nat)
        [⟨[0], [1], [0], [0], [5], [0], [5], [65]⟩, ⟨[0], [1], [0], [0], [5], [0], [5], [65]⟩],
      ∃ c ∈ comb, c.Size = 0 ∧ c.Length < c.Transfer.In.Fragment ∧
        c.Length < c.Transfer.Out.Fragment ∧ Inconsistent c) := by
  refine ⟨⟨⟨0, 1, ⟨0⟩, ⟨⟨0, 5⟩, ⟨0, 5⟩⟩, [65], 0⟩, by decide, by decide⟩,
    ⟨[⟨0, 1, ⟨0⟩, ⟨⟨0, 5⟩, ⟨0, 5⟩⟩, [65], 0⟩, ⟨0, 1, ⟨0⟩, ⟨⟨0, 5⟩, ⟨0, 5⟩⟩, [65], 0⟩],
      by decide, ⟨0, 1, ⟨0⟩, ⟨⟨0, 5⟩, ⟨0, 5⟩⟩, [65], 0⟩, by decide, by decide⟩⟩

end Simu2

/-! ## State-passing loops -/

/-- The results of `mapState` on a concatenation. -/
theorem mapState_append {α β σ : Type} (f : α → σ → β × σ) (xs ys : List α) (w : σ) :
    mapState f (xs ++ ys) w =
      ((mapState f xs w).1 ++ (mapState f ys (mapState f xs w).2).1,
        (mapState f ys (mapState f xs w).2).2) := by
  induction xs generalizing w with
  | nil => simp [mapState]
  | cons x xs ih => simp [mapState, ih]

/-- `mapState` after a `map`. -/
theorem mapState_map {α β γ σ : Type} (f : β → σ → γ × σ) (g : α → β) (xs : List α)
    (w : σ) : mapState f (xs.map g) w = mapState (fun x => f (g x)) xs w := by
  induction xs generalizing w with
  | nil => simp [mapState]
  | cons x xs ih => simp [mapState, ih]

/-- `mapState` returns one result per element. -/
theorem length_mapState {α β σ : Type} (f : α → σ → β × σ) (xs : List α) (w : σ) :
    (mapState f xs w).1.length = xs.length := by
  induction xs generalizing w with
  | nil => simp [mapState]
  | cons x xs ih => simp [mapState, ih]

/-- A projection of the results of `mapState` that does not depend on the state. -/
theorem map_mapState {α β γ σ : Type} (f : α → σ → β × σ) (g : β → γ) (h : α → γ)
    (hf : ∀ x w, g (f x w).1 = h x) (xs : List α) (w : σ) :
    (mapState f xs w).1.map g = xs.map h := by
  induction xs generalizing w with
  | nil => simp [mapState]
  | cons x xs ih => simp [mapState, ih, hf]

/-- A property that every result of the step has holds for all results of `mapState`. -/
theorem forall_mem_mapState {α β σ : Type} (f : α → σ → β × σ) (p : β → Prop)
    (hf : ∀ x w, p (f x w).1) (xs : List α) (w : σ) :
    ∀ r ∈ (mapState f xs w).1, p r := by
  induction xs generalizing w with
  | nil => simp [mapState]
  | cons x xs ih =>
    intro r hr
    simp only [mapState, List.mem_cons] at hr
    rcases hr with rfl | hr
    · exact hf x w
    · exact ih _ r hr

/-- `mapState` over a `flatMap` runs block by block. -/
theorem mapState_flatMap {α β γ σ : Type} (f : β → σ → γ × σ) (h : α → List β)
    (xs : List α) (w : σ) :
    mapState f (xs.flatMap h) w = flatMapState (fun x => mapState f (h x)) xs w := by
  induction xs generalizing w with
  | nil => simp [mapState, flatMapState]
  | cons x xs ih => simp [List.flatMap_cons, mapState_append, flatMapState, ih]

/-- A loop that appends one state-dependent result per round. -/
theorem foldl_state_append_map {α β σ : Type} (f : α → σ → β × σ) (xs : List α)
    (acc : List β) (w : σ) :
    xs.foldl (fun (st : List β × σ) x => (st.1 ++ [(f x st.2).1], (f x st.2).2)) (acc, w) =
      (acc ++ (mapState f xs w).1, (mapState f xs w).2) := by
  induction xs generalizing acc w with
  | nil => simp [mapState]
  | cons x xs ih => simp [List.foldl_cons, ih, mapState, List.append_assoc]

/-- A loop that appends a state-dependent block of results per round. -/
theorem foldl_state_append_flatMap {α β σ : Type} (g : List β × σ → α → List β × σ)
    (f : α → σ → List β × σ)
    (h : ∀ st x, g st x = (st.1 ++ (f x st.2).1, (f x st.2).2)) (xs : List α)
    (acc : List β) (w : σ) :
    xs.foldl g (acc, w) = (acc ++ (flatMapState f xs w).1, (flatMapState f xs w).2) := by
  induction xs generalizing acc w with
  | nil => simp [flatMapState]
  | cons x xs ih => simp [List.foldl_cons, h, ih, flatMapState, List.append_assoc]

/-- The number of results of `flatMapState` when every block has the same length. -/
theorem length_flatMapState_const {α β σ : Type} (f : α → σ → List β × σ) (n : Nat)
    (hf : ∀ x w, (f x w).1.length = n) (xs : List α) (w : σ) :
    (flatMapState f xs w).1.length = xs.length * n := by
  induction xs generalizing w with
  | nil => simp [flatMapState]
  | cons x xs ih => simp [flatMapState, hf, ih, Nat.succ_mul, Nat.add_comm]

/-! ## `calculateResults` -/

namespace Simu2

/-- The loops of `calculateResults` take the measurements in the specification's
order. -/
theorem calculateResults_eq_mapState {σ P G F : Type} [Inhabited P] (lib : Lib σ P G F)
    (pops : List P) (numGen : Int) (w : σ) :
    calculateResults lib pops numGen w =
      mapState (measure lib pops numGen) (indexOrder pops.length) w := by
  unfold calculateResults indexOrder
  rw [mapState_flatMap]
  rw [foldl_state_append_flatMap _
    (fun i => mapState (measure lib pops numGen)
      ([i] :: (List.range' (i + 1) (pops.length - (i + 1))).map fun j => [i, j]))
    _ (List.range pops.length) [] w]
  · simp
  · intro st i
    simp only [mapState, mapState_map]
    refine (foldl_state_append_map (fun j w => measure lib pops numGen [i, j] w)
      (List.range' (i + 1) (pops.length - (i + 1))) _ _).trans ?_
    simp only [List.append_assoc, List.singleton_append]
    rfl

/-- The block lengths of `indexOrder` add up to a triangular number. -/
theorem sum_block_lengths (p : Nat) :
    2 * ((List.range p).map fun i => 1 + (p - (i + 1))).sum = p * (p + 1) := by
  induction p with
  | zero => simp
  | succ p ih =>
    rw [List.range_succ_eq_map, List.map_cons, List.sum_cons, List.map_map]
    have e : ((fun i => 1 + (p + 1 - (i + 1))) ∘ Nat.succ) = fun i => 1 + (p - (i + 1)) := by
      funext i
      simp only [Function.comp, Nat.succ_eq_add_one]
      omega
    rw [e]
    have e0 : 1 + (p + 1 - (0 + 1)) = p + 1 := by omega
    rw [e0, Nat.mul_add, ih]
    ring

/-- A snapshot of `p` populations has `p(p+1)/2` index sets. -/
theorem length_indexOrder (p : Nat) : (indexOrder p).length = p * (p + 1) / 2 := by
  have h : 2 * (indexOrder p).length = p * (p + 1) := by
    rw [← sum_block_lengths p]
    unfold indexOrder
    rw [List.length_flatMap]
    congr 2
    apply List.map_congr_left
    intro i _
    simp only [Function.comp, List.length_cons, List.length_map, List.length_range']
    omega
  omega

/-- The index sets of a snapshot: one `[i]` per population and one `[i, j]` per pair
`i < j < p`. -/
theorem mem_indexOrder (p : Nat) (idx : List Nat) :
    idx ∈ indexOrder p ↔
      (∃ i, i < p ∧ idx = [i]) ∨ (∃ i j, i < j ∧ j < p ∧ idx = [i, j]) := by
  simp only [indexOrder, List.mem_flatMap, List.mem_range, List.mem_cons, List.mem_map,
    List.mem_range'_1]
  constructor
  · rintro ⟨i, hi, h | ⟨j, ⟨h1, h2⟩, rfl⟩⟩
    · exact Or.inl ⟨i, hi, h⟩
    · exact Or.inr ⟨i, j, by omega, by omega, rfl⟩
  · rintro (⟨i, hi, rfl⟩ | ⟨i, j, hij, hj, rfl⟩)
    · exact ⟨i, hi, Or.inl rfl⟩
    · exact ⟨i, by omega, Or.inr ⟨j, ⟨by omega, by omega⟩, rfl⟩⟩

end Simu2

namespace Simu2

/-- No index set occurs twice in a snapshot. -/
theorem nodup_indexOrder (p : Nat) : (indexOrder p).Nodup := by
  unfold indexOrder
  rw [List.nodup_flatMap]
  constructor
  · intro i _
    rw [List.nodup_cons]
    constructor
    · simp
    · apply List.Nodup.map
      · intro a b hab
        simpa using hab
      · exact List.nodup_range' _ _
  · apply List.Pairwise.imp _ (List.pairwise_lt_range p)
    intro a b hab
    show List.Disjoint _ _
    rw [List.disjoint_left]
    intro idx ha hb
    have h1 : idx.headD 0 = a := by
      simp only [List.mem_cons, List.mem_map] at ha
      rcases ha with rfl | ⟨j, _, rfl⟩ <;> rfl
    have h2 : idx.headD 0 = b := by
      simp only [List.mem_cons, List.mem_map] at hb
      rcases hb with rfl | ⟨j, _, rfl⟩ <;> rfl
    omega

/-- C6. For every list of `p` populations and every `numGen`, `calculateResults` returns
the measurements of the index sets `[0], [0,1], ..., [0,p-1], [1], [1,2], ..., [p-1]` in
this order: `p(p+1)/2` entries, all with `NumGen = numGen`; the entry of `[i]` holds the
`(Ks, Vd)` of `CalcKs(pops[i])` and the entry of `[i, j]` those of
`CrossKs(pops[i], pops[j])`; each `[i]` with `i < p` and each `[i, j]` with `i < j < p`
occurs exactly once, and nothing else occurs. -/
theorem calculateResults_snapshot {σ P G F : Type} [Inhabited P] (lib : Lib σ P G F)
    (pops : List P) (numGen : Int) (w : σ) :
    calculateResults lib pops numGen w =
      mapState (measure lib pops numGen) (indexOrder pops.length) w ∧
    (calculateResults lib pops numGen w).1.length = pops.length * (pops.length + 1) / 2 ∧
    (calculateResults lib pops numGen w).1.map (fun r => r.Index) =
      (indexOrder pops.length).map (fun idx => idx.map Int.ofNat) ∧
    (∀ r ∈ (calculateResults lib pops numGen w).1, r.NumGen = numGen) ∧
    (∀ (i : Nat) (v : σ), measure lib pops numGen [i] v =
      ({ Index := [(i : Int)], Ks := (lib.CalcKs (pops.getD i default) v).1.1,
         Vd := (lib.CalcKs (pops.getD i default) v).1.2, NumGen := numGen },
       (lib.CalcKs (pops.getD i default) v).2)) ∧
    (∀ (i j : Nat) (v : σ), measure lib pops numGen [i, j] v =
      ({ Index := [(i : Int), (j : Int)],
         Ks := (lib.CrossKs (pops.getD i default) (pops.getD j default) v).1.1,
         Vd := (lib.CrossKs (pops.getD i default) (pops.getD j default) v).1.2,
         NumGen := numGen },
       (lib.CrossKs (pops.getD i default) (pops.getD j default) v).2)) ∧
    (indexOrder pops.length).Nodup ∧
    (∀ idx : List Nat, idx ∈ indexOrder pops.length ↔
      (∃ i, i < pops.length ∧ idx = [i]) ∨
        (∃ i j, i < j ∧ j < pops.length ∧ idx = [i, j])) ∧
    indexOrder 3 = [[0], [0, 1], [0, 2], [1], [1, 2], [2]] := by
  have hidx : ∀ (idx : List Nat) (v : σ),
      (measure lib pops numGen idx v).1.Index = idx.map Int.ofNat := by
    intro idx v
    unfold measure
    split <;> rfl
  have hgen : ∀ (idx : List Nat) (v : σ), (measure lib pops numGen idx v).1.NumGen = numGen := by
    intro idx v
    unfold measure
    split <;> rfl
  refine ⟨calculateResults_eq_mapState lib pops numGen w, ?_, ?_, ?_, ?_, ?_,
    nodup_indexOrder _, mem_indexOrder _, by decide⟩
  · rw [calculateResults_eq_mapState, length_mapState, length_indexOrder]
  · rw [calculateResults_eq_mapState]
    exact map_mapState _ _ _ hidx _ _
  · rw [calculateResults_eq_mapState]
    exact forall_mem_mapState _ _ hgen _ _
  · intro i v
    rfl
  · intro i j v
    rfl

end Simu2

/-! ## The worker loop of `main` -/

/-- A run whose step does not look at the element depends only on the number of
elements. -/
theorem flatMapStateOpt_congr_length {α α' β σ : Type} (f : α → σ → Option (List β × σ))
    (f' : α' → σ → Option (List β × σ)) (hf : ∀ x y w, f x w = f' y w)
    (xs : List α) (ys : List α') (hlen : xs.length = ys.length) (w : σ) :
    flatMapStateOpt f xs w = flatMapStateOpt f' ys w := by
  induction xs generalizing ys w with
  | nil =>
    cases ys with
    | nil => rfl
    | cons y ys => simp at hlen
  | cons x xs ih =>
    cases ys with
    | nil => simp at hlen
    | cons y ys =>
      simp only [List.length_cons, Nat.add_right_cancel_iff] at hlen
      simp only [flatMapStateOpt, hf x y w]
      cases h : f' y w with
      | none => rfl
      | some r => simp only [ih ys hlen]

/-- A run whose steps all succeed with blocks of the same length succeeds. -/
theorem flatMapStateOpt_isSome {α β σ : Type} (f : α → σ → Option (List β × σ)) (m : Nat)
    (hf : ∀ x w, ∃ r, f x w = some r ∧ r.1.length = m) (xs : List α) (w : σ) :
    ∃ r, flatMapStateOpt f xs w = some r ∧ r.1.length = xs.length * m := by
  induction xs generalizing w with
  | nil => exact ⟨([], w), rfl, by simp⟩
  | cons x xs ih =>
    obtain ⟨r, hr, hrl⟩ := hf x w
    obtain ⟨rs, hrs, hrsl⟩ := ih r.2
    refine ⟨(r.1 ++ rs.1, rs.2), ?_, ?_⟩
    · simp only [flatMapStateOpt, hr, hrs]
    · simp only [List.length_append, hrl, hrsl, List.length_cons]
      ring

/-- The running generation count: adding `genStep` to `k * genStep` gives
`(k + 1) * genStep`, as Go `int`s. -/
theorem goAdd_wrap_mul (k : Nat) (genStep : Int) :
    goAdd (wrapInt64 ((k : Int) * genStep)) genStep =
      wrapInt64 (((k + 1 : Nat) : Int) * genStep) := by
  unfold goAdd
  apply wrapInt64_congr
  rw [Int.add_emod, wrapInt64_emod, ← Int.add_emod]
  congr 1
  push_cast
  ring

namespace Simu2

/-- The sequence drawn by `randomGenerateAncestor`: the loop never fails on a non-empty
alphabet and keeps the length of the slice. -/
theorem ancestorLoop_some {σ P G F : Type} (lib : Lib σ P G F) (alphbets : List Byte)
    (ha : alphbets ≠ []) (is : List Nat) (s : Sequence) (w : σ) :
    ∃ s' w', is.foldl (fun (st : Option (Sequence × σ)) i =>
      match st with
      | none => none
      | some (s, w) =>
        if alphbets.length = 0 then none
        else
          let r := lib.Intn alphbets.length w
          some (s.set i (alphbets.getD (r.1 % alphbets.length) 0), r.2))
      (some (s, w)) = some (s', w') ∧ s'.length = s.length := by
  have hl : alphbets.length ≠ 0 := by
    intro h
    exact ha (List.length_eq_zero.mp h)
  induction is generalizing s w with
  | nil => exact ⟨s, w, rfl, rfl⟩
  | cons i is ih =>
    obtain ⟨s', w', h, hlen⟩ := ih
      (s.set i (alphbets.getD ((lib.Intn alphbets.length w).1 % alphbets.length) 0))
      (lib.Intn alphbets.length w).2
    refine ⟨s', w', ?_, by rw [hlen, List.length_set]⟩
    rw [List.foldl_cons]
    dsimp only
    rw [if_neg hl]
    exact h

/-- The function `randomGenerateAncestor` returns a sequence of the requested length
when the length is not negative and the alphabet is not empty (or no site is drawn). -/
theorem randomGenerateAncestor_some {σ P G F : Type} (lib : Lib σ P G F) (size : Int)
    (alphbets : List Byte) (w : σ) (hsize : 0 ≤ size) (ha : alphbets ≠ [] ∨ size = 0) :
    ∃ s w', randomGenerateAncestor lib size alphbets w = some (s, w') ∧
      s.length = size.toNat := by
  unfold randomGenerateAncestor
  rw [if_neg (by omega)]
  rcases ha with ha | h0
  · obtain ⟨s', w', h, hlen⟩ := ancestorLoop_some lib alphbets ha
      (List.range (loopCount size)) (List.replicate (loopCount size) 0) w
    exact ⟨s', w', h, by rw [hlen, List.length_replicate, loopCount]⟩
  · subst h0
    exact ⟨[], w, by simp [loopCount], by simp⟩

/-- The loop of `createPops` that fills `pops` keeps its length. -/
theorem fillLoop_length {σ P G F : Type} (lib : Lib σ P G F) (cfgs : List (Config F))
    (generator : G) (d : Config F) (is : List Nat) (st : List P × σ) :
    (is.foldl (fun (st : List P × σ) i =>
      let r := lib.NewPop (cfgs.getD i d) generator st.2
      (st.1.set i r.1, r.2)) st).1.length = st.1.length := by
  induction is generalizing st with
  | nil => rfl
  | cons i is ih =>
    simp only [List.foldl_cons]
    rw [ih]
    simp

/-- The function `createPops` returns one population per Config on the combinations on
which it does not panic. -/
theorem createPops_some {σ P G F : Type} [Inhabited P] [Inhabited F] (lib : Lib σ P G F)
    (cfgs : List (Config F)) (w : σ) (hok : CreatePopsOk cfgs) :
    ∃ pops w', createPops lib cfgs w = some (pops, w') ∧ pops.length = cfgs.length := by
  cases cfgs with
  | nil => exact absurd hok (by simp [CreatePopsOk])
  | cons c0 rest =>
    simp only [CreatePopsOk] at hok
    obtain ⟨s, w1, hs, -⟩ := randomGenerateAncestor_some lib c0.Length c0.Alphabet w hok.1 hok.2
    simp only [createPops, hs]
    refine ⟨_, _, rfl, ?_⟩
    rw [fillLoop_length]
    simp

/-- The function `createPops` panics on every other combination. -/
theorem createPops_none {σ P G F : Type} [Inhabited P] [Inhabited F] (lib : Lib σ P G F)
    (cfgs : List (Config F)) (w : σ) (hok : ¬ CreatePopsOk cfgs) :
    createPops lib cfgs w = none := by
  cases cfgs with
  | nil => rfl
  | cons c0 rest =>
    simp only [CreatePopsOk, not_and_or, not_or] at hok
    have hnone : randomGenerateAncestor lib c0.Length c0.Alphabet w = none := by
      unfold randomGenerateAncestor
      rcases hok with h | ⟨h1, h2⟩
      · rw [if_pos (by omega)]
      · by_cases hneg : c0.Length < 0
        · rw [if_pos hneg]
        · rw [if_neg hneg]
          have ha : c0.Alphabet = [] := not_not.mp h1
          have hpos : 0 < loopCount c0.Length := by
            unfold loopCount
            omega
          obtain ⟨n, hn⟩ : ∃ n, loopCount c0.Length = n + 1 := ⟨loopCount c0.Length - 1, by omega⟩
          rw [hn, List.range_succ_eq_map, List.foldl_cons]
          simp only [ha, List.length_nil, if_true]
          generalize List.map Nat.succ (List.range n) = is
          induction is with
          | nil => rfl
          | cons i is ih => simpa using ih
    simp only [createPops, hnone]

/-- The chunk loop of a worker: after `n` chunks started at count `k * genStep` the
snapshots of the chunks `k+1, ..., k+n` have been appended. -/
theorem chunkLoop_eq {σ P G F α : Type} [Inhabited P] (lib : Lib σ P G F) (pops : List P)
    (comb : List (Config F)) (genStep : Int) (js : List α) (k : Nat) (res : Results F)
    (w : σ) :
    js.foldl (fun (st : Results F × σ × Int) _ => chunkStep lib pops comb genStep st)
      (res, w, wrapInt64 ((k : Int) * genStep)) =
    ({ res with CalcResults := res.CalcResults ++
        (flatMapState (chunkSpec lib pops comb genStep) (List.range' (k + 1) js.length) w).1 },
      (flatMapState (chunkSpec lib pops comb genStep) (List.range' (k + 1) js.length) w).2,
      wrapInt64 (((k + js.length : Nat) : Int) * genStep)) := by
  induction js generalizing k res w with
  | nil => simp [flatMapState]
  | cons j js ih =>
    simp only [List.foldl_cons, List.length_cons, List.range'_succ, flatMapState]
    rw [chunkStep]
    simp only []
    rw [goAdd_wrap_mul, ih (k + 1)]
    have e : k + 1 + js.length = k + (js.length + 1) := by omega
    simp only [chunkSpec, goMul, List.append_assoc, e]

end Simu2

namespace Simu2

/-- The replicate loop of a worker stays failed once a replicate has panicked. -/
theorem replicateLoop_none {σ P G F α : Type} [Inhabited P] [Inhabited F]
    (lib : Lib σ P G F) (genStep genTime : Int) (comb : List (Config F)) (js : List α) :
    js.foldl (fun (st : Option (Results F × σ)) _ => replicateStep lib genStep genTime comb st)
      none = none := by
  induction js with
  | nil => rfl
  | cons j js ih => rw [List.foldl_cons]; exact ih

/-- The replicate loop of a worker appends, replicate after replicate, what the
specification's replicate produces. -/
theorem replicateLoop_eq {σ P G F α : Type} [Inhabited P] [Inhabited F]
    (lib : Lib σ P G F) (genStep genTime : Int) (comb : List (Config F)) (js : List α)
    (res : Results F) (w : σ) :
    js.foldl (fun (st : Option (Results F × σ)) _ => replicateStep lib genStep genTime comb st)
      (some (res, w)) =
    match flatMapStateOpt (fun (_ : α) => replicateSpec lib genStep genTime comb 0) js w with
    | none => none
    | some r => some ({ res with CalcResults := res.CalcResults ++ r.1 }, r.2) := by
  induction js generalizing res w with
  | nil => simp [flatMapStateOpt]
  | cons j js ih =>
    rw [List.foldl_cons]
    show List.foldl _ (replicateStep lib genStep genTime comb (some (res, w))) js = _
    simp only [flatMapStateOpt, replicateSpec]
    cases hc : createPops lib comb w with
    | none =>
      have hstep : replicateStep lib genStep genTime comb (some (res, w)) = none := by
        simp only [replicateStep, hc]
      rw [hstep]
      exact replicateLoop_none lib genStep genTime comb js
    | some pw =>
      obtain ⟨pops, w1⟩ := pw
      have h0 : (0 : Int) = wrapInt64 (((0 : Nat) : Int) * genStep) := by
        simp [wrapInt64]
      have hstep : replicateStep lib genStep genTime comb (some (res, w)) =
          some ({ res with CalcResults := res.CalcResults ++
              (flatMapState (chunkSpec lib pops comb genStep)
                (List.range' 1 (loopCount genTime)) w1).1 },
            (flatMapState (chunkSpec lib pops comb genStep)
              (List.range' 1 (loopCount genTime)) w1).2) := by
        simp only [replicateStep, hc]
        rw [h0, chunkLoop_eq lib pops comb genStep (List.range (loopCount genTime)) 0]
        simp only [List.length_range, Nat.zero_add]
      rw [hstep, ih]
      simp only []
      cases flatMapStateOpt (fun (_ : α) => replicateSpec lib genStep genTime comb 0) js
          (flatMapState (chunkSpec lib pops comb genStep)
            (List.range' 1 (loopCount genTime)) w1).2 with
      | none => rfl
      | some r => simp [List.append_assoc]

/-- The worker builds the specification's Result, or panics when the specification's
run does. -/
theorem worker_eq_workerSpec {σ P G F : Type} [Inhabited P] [Inhabited F]
    (lib : Lib σ P G F) (numRep genStep genTime : Int) (comb : List (Config F)) (w : σ) :
    worker lib numRep genStep genTime comb w =
      workerSpec lib numRep genStep genTime comb w := by
  unfold worker workerSpec
  rw [replicateLoop_eq]
  rw [flatMapStateOpt_congr_length (fun (_ : Nat) => replicateSpec lib genStep genTime comb 0)
    (replicateSpec lib genStep genTime comb) (fun _ _ _ => rfl)
    (List.range (loopCount numRep)) (List.range' 1 (loopCount numRep)) (by simp)]
  cases flatMapStateOpt (replicateSpec lib genStep genTime comb)
      (List.range' 1 (loopCount numRep)) w with
  | none => rfl
  | some r => simp

/-- One chunk records one snapshot: `p(p+1)/2` entries, all carrying the chunk's
generation count. -/
theorem chunkSpec_entries {σ P G F : Type} [Inhabited P] (lib : Lib σ P G F)
    (pops : List P) (comb : List (Config F)) (genStep : Int) (t : Nat) (v : σ) :
    (chunkSpec lib pops comb genStep t v).1.length = pops.length * (pops.length + 1) / 2 ∧
    ∀ r ∈ (chunkSpec lib pops comb genStep t v).1, r.NumGen = goMul (t : Int) genStep := by
  unfold chunkSpec
  rw [calculateResults_eq_mapState]
  refine ⟨by rw [length_mapState, length_indexOrder], ?_⟩
  apply forall_mem_mapState
  intro idx v
  unfold measure
  split <;> rfl

/-- One replicate succeeds on the combinations on which `createPops` does not panic,
with `genTime` snapshots. -/
theorem replicateSpec_some {σ P G F : Type} [Inhabited P] [Inhabited F]
    (lib : Lib σ P G F) (genStep genTime : Int) (comb : List (Config F))
    (hok : CreatePopsOk comb) (j : Nat) (w : σ) :
    ∃ r, replicateSpec lib genStep genTime comb j w = some r ∧
      r.1.length = loopCount genTime * (comb.length * (comb.length + 1) / 2) := by
  obtain ⟨pops, w1, hc, hlen⟩ := createPops_some lib comb w hok
  refine ⟨flatMapState (chunkSpec lib pops comb genStep)
    (List.range' 1 (loopCount genTime)) w1, by simp only [replicateSpec, hc], ?_⟩
  rw [length_flatMapState_const _ (comb.length * (comb.length + 1) / 2)]
  · simp
  · intro t v
    rw [(chunkSpec_entries lib pops comb genStep t v).1, hlen]

/-- The worker builds a Result on every combination on which `createPops` does not
panic. -/
theorem worker_some {σ P G F : Type} [Inhabited P] [Inhabited F] (lib : Lib σ P G F)
    (numRep genStep genTime : Int) (comb : List (Config F)) (w : σ)
    (hok : CreatePopsOk comb) :
    ∃ res w', worker lib numRep genStep genTime comb w = some (res, w') := by
  rw [worker_eq_workerSpec]
  obtain ⟨r, hr, -⟩ := flatMapStateOpt_isSome (replicateSpec lib genStep genTime comb)
    (loopCount genTime * (comb.length * (comb.length + 1) / 2))
    (fun j v => replicateSpec_some lib genStep genTime comb hok j v)
    (List.range' 1 (loopCount numRep)) w
  exact ⟨{ PopConfigs := comb, CalcResults := r.1 }, r.2, by simp only [workerSpec, hr]⟩

/-- The populations `createPops` returns are as many as the Configs. -/
theorem createPops_length {σ P G F : Type} [Inhabited P] [Inhabited F] (lib : Lib σ P G F)
    (cfgs : List (Config F)) (w w' : σ) (pops : List P)
    (h : createPops lib cfgs w = some (pops, w')) : pops.length = cfgs.length := by
  by_cases hok : CreatePopsOk cfgs
  · obtain ⟨pops', w'', h', hlen⟩ := createPops_some lib cfgs w hok
    rw [h] at h'
    simp only [Option.some.injEq, Prod.mk.injEq] at h'
    rw [h'.1]
    exact hlen
  · rw [createPops_none lib cfgs w hok] at h
    exact absurd h (by simp)

/-- A successful run whose successful steps all give blocks of the same length. -/
theorem length_flatMapStateOpt {α β σ : Type} (f : α → σ → Option (List β × σ)) (m : Nat)
    (hf : ∀ x w r, f x w = some r → r.1.length = m) (xs : List α) (w : σ)
    (r : List β × σ) (h : flatMapStateOpt f xs w = some r) : r.1.length = xs.length * m := by
  induction xs generalizing w r with
  | nil =>
    simp only [flatMapStateOpt, Option.some.injEq] at h
    subst h
    simp
  | cons x xs ih =>
    simp only [flatMapStateOpt] at h
    cases h1 : f x w with
    | none => simp [h1] at h
    | some r1 =>
      simp only [h1] at h
      cases h2 : flatMapStateOpt f xs r1.2 with
      | none => simp [h2] at h
      | some r2 =>
        simp only [h2, Option.some.injEq] at h
        subst h
        simp only [List.length_append, hf x w r1 h1, ih r1.2 r2 h2, List.length_cons]
        ring

/-- A replicate that succeeds records `genTime` snapshots. -/
theorem length_replicateSpec {σ P G F : Type} [Inhabited P] [Inhabited F]
    (lib : Lib σ P G F) (genStep genTime : Int) (comb : List (Config F)) (j : Nat) (w : σ)
    (r : List (CalcRes F) × σ) (h : replicateSpec lib genStep genTime comb j w = some r) :
    r.1.length = loopCount genTime * (comb.length * (comb.length + 1) / 2) := by
  unfold replicateSpec at h
  cases hc : createPops lib comb w with
  | none => simp [hc] at h
  | some pw =>
    obtain ⟨pops, w1⟩ := pw
    simp only [hc, Option.some.injEq] at h
    subst h
    rw [length_flatMapState_const _ (comb.length * (comb.length + 1) / 2)]
    · simp
    · intro t v
      rw [(chunkSpec_entries lib pops comb genStep t v).1, createPops_length lib comb w w1 pops hc]

/-- The worker panics when a replicate is asked for on a combination on which
`createPops` panics. -/
theorem worker_none {σ P G F : Type} [Inhabited P] [Inhabited F] (lib : Lib σ P G F)
    (numRep genStep genTime : Int) (comb : List (Config F)) (w : σ) (hrep : 0 < numRep)
    (hok : ¬ CreatePopsOk comb) : worker lib numRep genStep genTime comb w = none := by
  rw [worker_eq_workerSpec]
  obtain ⟨n, hn⟩ : ∃ n, loopCount numRep = n + 1 :=
    ⟨loopCount numRep - 1, by unfold loopCount; omega⟩
  simp only [workerSpec, hn, List.range'_succ, flatMapStateOpt, replicateSpec,
    createPops_none lib comb w hok]

/-- C5. For every job combination `comb` with `p` Configs and every `numRep ≥ 0`,
`genStep` and `genTime ≥ 0`, the worker builds a Result unless a replicate is asked for
on a combination on which `createPops` panics, and the Result it builds has
`PopConfigs = comb` and `CalcResults` equal to the concatenation, over the replicates
`j = 1..numRep` and within each replicate over the chunks `t = 1..genTime` in order, of
`calculateResults(pops, t * genStep)` taken after the `t`-th call of `RunMoran` on the
populations made for that replicate: the count restarts at `genStep` in every replicate,
every entry of the `t`-th chunk carries `NumGen = t * genStep` (a Go `int`: the exact
product whenever that is a Go `int`), each chunk has `p(p+1)/2` entries and the Result
has `numRep * genTime * p(p+1)/2` of them. -/
theorem worker_result {σ P G F : Type} [Inhabited P] [Inhabited F] (lib : Lib σ P G F)
    (numRep genStep genTime : Int) (comb : List (Config F)) (w : σ)
    (hrep : 0 ≤ numRep) (htime : 0 ≤ genTime) :
    worker lib numRep genStep genTime comb w =
      workerSpec lib numRep genStep genTime comb w ∧
    ((∃ res w', worker lib numRep genStep genTime comb w = some (res, w')) ↔
      (numRep = 0 ∨ CreatePopsOk comb)) ∧
    (∀ res w', worker lib numRep genStep genTime comb w = some (res, w') →
      res.PopConfigs = comb ∧
      (res.CalcResults.length : Int) =
        numRep * genTime * ((comb.length * (comb.length + 1) / 2 : Nat) : Int)) ∧
    (∀ (pops : List P) (t : Nat) (v : σ),
      (chunkSpec lib pops comb genStep t v).1.length =
        pops.length * (pops.length + 1) / 2 ∧
      (∀ r ∈ (chunkSpec lib pops comb genStep t v).1,
        r.NumGen = wrapInt64 ((t : Int) * genStep) ∧
        (InInt64 ((t : Int) * genStep) → r.NumGen = (t : Int) * genStep))) := by
  refine ⟨worker_eq_workerSpec lib numRep genStep genTime comb w, ?_, ?_, ?_⟩
  · constructor
    · rintro ⟨res, w', h⟩
      by_contra hcon
      rw [not_or] at hcon
      rw [worker_none lib numRep genStep genTime comb w (by omega) hcon.2] at h
      exact absurd h (by simp)
    · rintro (h0 | hok)
      · subst h0
        exact ⟨{ PopConfigs := comb, CalcResults := [] }, w, rfl⟩
      · exact worker_some lib numRep genStep genTime comb w hok
  · intro res w' h
    rw [worker_eq_workerSpec] at h
    unfold workerSpec at h
    cases hr : flatMapStateOpt (replicateSpec lib genStep genTime comb)
        (List.range' 1 (loopCount numRep)) w with
    | none => simp [hr] at h
    | some r =>
      simp only [hr, Option.some.injEq, Prod.mk.injEq] at h
      obtain ⟨h1, -⟩ := h
      subst h1
      refine ⟨rfl, ?_⟩
      have hlen := length_flatMapStateOpt (replicateSpec lib genStep genTime comb)
        (loopCount genTime * (comb.length * (comb.length + 1) / 2))
        (fun j v r' hr' => length_replicateSpec lib genStep genTime comb j v r' hr')
        (List.range' 1 (loopCount numRep)) w r hr
      have e1 : ((loopCount numRep : Nat) : Int) = numRep := Int.toNat_of_nonneg hrep
      have e2 : ((loopCount genTime : Nat) : Int) = genTime := Int.toNat_of_nonneg htime
      simp only [hlen, List.length_range']
      push_cast
      rw [e1, e2]
      ring
  · intro pops t v
    have h := chunkSpec_entries lib pops comb genStep t v
    exact ⟨h.1, fun r hr => ⟨h.2 r hr, fun hin => (h.2 r hr).trans (wrapInt64_of_inInt64 hin)⟩⟩

end Simu2

/-! ## `createPops` -/

namespace Simu2

/-- The loop of `createPops` that fills `pops`, after `k` rounds: the first `k` slots hold
the populations of the first `k` Configs, the others are still `nil`. -/
theorem fillLoop_take {σ P G F : Type} [Inhabited P] (lib : Lib σ P G F)
    (cfgs : List (Config F)) (generator : G) (d : Config F) (w : σ) (k : Nat)
    (hk : k ≤ cfgs.length) :
    (List.range k).foldl (fun (st : List P × σ) i =>
      let r := lib.NewPop (cfgs.getD i d) generator st.2
      (st.1.set i r.1, r.2)) (List.replicate cfgs.length default, w) =
    ((mapState (fun c v => lib.NewPop c generator v) (cfgs.take k) w).1 ++
        List.replicate (cfgs.length - k) default,
      (mapState (fun c v => lib.NewPop c generator v) (cfgs.take k) w).2) := by
  induction k with
  | zero => simp [mapState]
  | succ k ih =>
    have hlt : k < cfgs.length := hk
    rw [List.range_succ, List.foldl_append, ih (Nat.le_of_lt hlt)]
    have htake : cfgs.take (k + 1) = cfgs.take k ++ [cfgs[k]] := by
      rw [← List.take_concat_get cfgs k hlt, List.concat_eq_append]
    have hrep : cfgs.length - k = (cfgs.length - (k + 1)) + 1 := by omega
    have hlenk : (mapState (fun c v => lib.NewPop c generator v) (cfgs.take k) w).1.length
        = k := by
      rw [length_mapState, List.length_take]
      omega
    simp only [List.foldl_cons, List.foldl_nil, htake, mapState_append, mapState,
      List.getD_eq_getElem _ _ hlt]
    rw [List.set_append, hlenk, if_neg (Nat.lt_irrefl k), Nat.sub_self, hrep,
      List.replicate_succ, List.set_cons_zero]
    simp [List.append_assoc]

/-- The function `createPops` makes, in order, one population per Config from the
generator of one ancestor drawn with the `Length` and the alphabet of the first
Config. -/
theorem createPops_eq {σ P G F : Type} [Inhabited P] [Inhabited F] (lib : Lib σ P G F)
    (c0 : Config F) (rest : List (Config F)) (w : σ) (hlen : 0 ≤ c0.Length)
    (ha : c0.Alphabet ≠ [] ∨ c0.Length = 0) :
    ∃ ancestor w1, randomGenerateAncestor lib c0.Length c0.Alphabet w = some (ancestor, w1) ∧
      ancestor.length = c0.Length.toNat ∧
      createPops lib (c0 :: rest) w =
        some (mapState (fun c v => lib.NewPop c (lib.NewSimplePopGenerator ancestor) v)
          (c0 :: rest) w1) := by
  obtain ⟨s, w1, hs, hl⟩ := randomGenerateAncestor_some lib c0.Length c0.Alphabet w hlen ha
  refine ⟨s, w1, hs, hl, ?_⟩
  simp only [createPops, hs]
  rw [fillLoop_take lib (c0 :: rest) _ _ w1 (c0 :: rest).length (Nat.le_refl _)]
  simp

/-- With populations built by copying, `mapState` of `NewPop` is a `map`. -/
theorem mapState_specLib_newPop {σ F : Type} (Intn : Nat → σ → Nat × σ)
    (RunMoran : List (List Sequence) → List (Config F) → Int → σ → σ)
    (CalcKs : List Sequence → σ → (F × F) × σ)
    (CrossKs : List Sequence → List Sequence → σ → (F × F) × σ)
    (ancestor : Sequence) (cfgs : List (Config F)) (w : σ) :
    mapState (fun c v => (specLib Intn RunMoran CalcKs CrossKs).NewPop c
        ((specLib Intn RunMoran CalcKs CrossKs).NewSimplePopGenerator ancestor) v) cfgs w =
      (cfgs.map fun c => List.replicate c.Size.toNat ancestor, w) := by
  induction cfgs with
  | nil => rfl
  | cons c cfgs ih =>
    have e : ((specLib Intn RunMoran CalcKs CrossKs).NewPop c
        ((specLib Intn RunMoran CalcKs CrossKs).NewSimplePopGenerator ancestor) w).2 = w := rfl
    simp only [mapState]
    rw [e, ih]
    rfl

/-- C8, as the code has it. For every combination `c0 :: rest` produced by
`generatePopConfigs` whose first Config has a non-negative `Length` and a non-empty
alphabet, `createPops` (populations being built by copying the ancestor `Size` times)
returns one population per Config, the `i`-th being `cfgs[i].Size` copies of one common
ancestor sequence of length `cfgs[0].Length`: every sequence of every population is the
ancestor and has the `Length` of the first Config, so it has the `Length` of its own
Config exactly when that equals the `Length` of the first Config. -/
theorem createPops_common_ancestor {σ F : Type} [Inhabited F] (Intn : Nat → σ → Nat × σ)
    (RunMoran : List (List Sequence) → List (Config F) → Int → σ → σ)
    (CalcKs : List Sequence → σ → (F × F) × σ)
    (CrossKs : List Sequence → List Sequence → σ → (F × F) × σ)
    (parSets : List (ParameterSet F)) (c0 : Config F) (rest : List (Config F)) (w : σ)
    (hcomb : c0 :: rest ∈ generatePopConfigs parSets) (hlen : 0 ≤ c0.Length)
    (ha : c0.Alphabet ≠ []) :
    ∃ ancestor pops w1,
      createPops (specLib Intn RunMoran CalcKs CrossKs) (c0 :: rest) w = some (pops, w1) ∧
      pops.length = (c0 :: rest).length ∧ pops.length = 2 ∧
      (ancestor.length : Int) = c0.Length ∧
      pops = (c0 :: rest).map (fun c => List.replicate c.Size.toNat ancestor) ∧
      (∀ pop ∈ pops, ∀ s ∈ pop, s = ancestor ∧ (s.length : Int) = c0.Length) ∧
      (∀ (i : Nat) (c : Config F), (c0 :: rest)[i]? = some c →
        ∀ s ∈ pops.getD i [], ((s.length : Int) = c.Length ↔ c.Length = c0.Length)) := by
  obtain ⟨ancestor, w1, -, hl, hc⟩ :=
    createPops_eq (specLib Intn RunMoran CalcKs CrossKs) c0 rest w hlen (Or.inl ha)
  rw [mapState_specLib_newPop] at hc
  have hal : (ancestor.length : Int) = c0.Length := by
    rw [hl]
    exact Int.toNat_of_nonneg hlen
  have hmem : ∀ pop ∈ (c0 :: rest).map (fun c => List.replicate c.Size.toNat ancestor),
      ∀ s ∈ pop, s = ancestor ∧ (s.length : Int) = c0.Length := by
    intro pop hpop s hs
    rw [List.mem_map] at hpop
    obtain ⟨c, -, rfl⟩ := hpop
    have := List.eq_of_mem_replicate hs
    subst this
    exact ⟨rfl, hal⟩
  have h2 := length_of_mem_generatePopConfigs parSets _ hcomb
  refine ⟨ancestor, _, w1, hc, by simp, by simpa using h2, hal, rfl, hmem, ?_⟩
  intro i c hi s hs
  have hpop : ((c0 :: rest).map (fun c => List.replicate c.Size.toNat ancestor)).getD i []
      ∈ (c0 :: rest).map (fun c => List.replicate c.Size.toNat ancestor) := by
    have hilt : i < (c0 :: rest).length := by
      by_contra hn
      rw [List.getElem?_eq_none (by omega)] at hi
      exact absurd hi (by simp)
    rw [List.getD_eq_getElem _ _ (by simpa using hilt)]
    exact List.getElem_mem _
  have h := (hmem _ hpop s hs).2
  rw [h]
  exact ⟨fun e => e.symm, fun e => e.symm⟩

/-- The populations `createPops` makes for the one combination of two sweeps with one
value per axis, `Length` 3 and alphabet `"AC"`. -/
theorem createPops_common_ancestor_witness :
    ([⟨2, 3, ⟨0⟩, ⟨⟨0, 1⟩, ⟨0, 1⟩⟩, [65, 67], 0⟩, ⟨1, 3, ⟨0⟩, ⟨⟨0, 1⟩, ⟨0, 1⟩⟩, [65, 67], 0⟩] :
        List (Config Nat)) ∈
      generatePopConfigs [⟨[2], [3], [0], [0], [1], [0], [1], [65, 67]⟩,
        ⟨[1], [3], [0], [0], [1], [0], [1], [65, 67]⟩] ∧
    ∃ ancestor pops w1,
      createPops counterLib
        [⟨2, 3, ⟨0⟩, ⟨⟨0, 1⟩, ⟨0, 1⟩⟩, [65, 67], 0⟩, ⟨1, 3, ⟨0⟩, ⟨⟨0, 1⟩, ⟨0, 1⟩⟩, [65, 67], 0⟩]
        0 = some (pops, w1) ∧
      pops.length = 2 ∧ (ancestor.length : Int) = 3 ∧
      ∀ pop ∈ pops, ∀ s ∈ pop, s = ancestor ∧ (s.length : Int) = 3 := by
  have hmem : ([⟨2, 3, ⟨0⟩, ⟨⟨0, 1⟩, ⟨0, 1⟩⟩, [65, 67], 0⟩,
      ⟨1, 3, ⟨0⟩, ⟨⟨0, 1⟩, ⟨0, 1⟩⟩, [65, 67], 0⟩] : List (Config Nat)) ∈
      generatePopConfigs [⟨[2], [3], [0], [0], [1], [0], [1], [65, 67]⟩,
        ⟨[1], [3], [0], [0], [1], [0], [1], [65, 67]⟩] := by decide
  obtain ⟨ancestor, pops, w1, h1, -, h2, h3, -, h5, -⟩ :=
    createPops_common_ancestor (fun n w => (w % n, w + 1)) (fun _ _ _ w => w)
      (fun _ w => ((0, 0), w)) (fun _ _ w => ((0, 0), w))
      [⟨[2], [3], [0], [0], [1], [0], [1], [65, 67]⟩,
        ⟨[1], [3], [0], [0], [1], [0], [1], [65, 67]⟩]
      ⟨2, 3, ⟨0⟩, ⟨⟨0, 1⟩, ⟨0, 1⟩⟩, [65, 67], 0⟩
      [⟨1, 3, ⟨0⟩, ⟨⟨0, 1⟩, ⟨0, 1⟩⟩, [65, 67], 0⟩] 0 hmem (by decide) (by decide)
  exact ⟨hmem, ancestor, pops, w1, h1, h2, h3, h5⟩

/-- C8 fails as stated: for the combination of a sweep of `Length` 1 with a sweep of
`Length` 2, which `generatePopConfigs` produces, `createPops` draws an ancestor of length
1 and the only sequence of the second population has length 1, not the `Length` 2 of its
Config. -/
theorem createPops_length_mismatch :
    ∃ comb ∈ generatePopConfigs (F := Nat) [⟨[1], [1], [0], [0], [1], [0], [1], [65]⟩,
        ⟨[1], [2], [0], [0], [1], [0], [1], [65]⟩],
      createPops counterLib comb 0 = some ([[[65]], [[65]]], 1) ∧
      ∃ c ∈ comb[1]?, ∃ pop ∈ ([[[65]], [[65]]] : List (List Sequence))[1]?,
        ∃ s ∈ pop, c.Alphabet ≠ [] ∧ (s.length : Int) ≠ c.Length := by
  refine ⟨[⟨1, 1, ⟨0⟩, ⟨⟨0, 1⟩, ⟨0, 1⟩⟩, [65], 0⟩, ⟨1, 2, ⟨0⟩, ⟨⟨0, 1⟩, ⟨0, 1⟩⟩, [65], 0⟩],
    by decide, by decide, ⟨1, 2, ⟨0⟩, ⟨⟨0, 1⟩, ⟨0, 1⟩⟩, [65], 0⟩, by decide, [[65]],
    by decide, [65], by decide, by decide, by decide⟩

/-- The Result a worker builds for a pair of Configs at 2 replicates of 3 chunks of 1000
generations has 18 entries. -/
theorem worker_result_witness :
    (0 : Int) ≤ 2 ∧ (0 : Int) ≤ 3 ∧
    worker counterLib 2 1000 3
        [⟨2, 3, ⟨0⟩, ⟨⟨0, 1⟩, ⟨0, 1⟩⟩, [65, 67], 0⟩, ⟨1, 3, ⟨0⟩, ⟨⟨0, 1⟩, ⟨0, 1⟩⟩, [65, 67], 0⟩]
        0 =
      workerSpec counterLib 2 1000 3
        [⟨2, 3, ⟨0⟩, ⟨⟨0, 1⟩, ⟨0, 1⟩⟩, [65, 67], 0⟩, ⟨1, 3, ⟨0⟩, ⟨⟨0, 1⟩, ⟨0, 1⟩⟩, [65, 67], 0⟩]
        0 ∧
    ∃ res w', worker counterLib 2 1000 3
        [⟨2, 3, ⟨0⟩, ⟨⟨0, 1⟩, ⟨0, 1⟩⟩, [65, 67], 0⟩, ⟨1, 3, ⟨0⟩, ⟨⟨0, 1⟩, ⟨0, 1⟩⟩, [65, 67], 0⟩]
        0 = some (res, w') ∧
      res.PopConfigs = [⟨2, 3, ⟨0⟩, ⟨⟨0, 1⟩, ⟨0, 1⟩⟩, [65, 67], 0⟩,
        ⟨1, 3, ⟨0⟩, ⟨⟨0, 1⟩, ⟨0, 1⟩⟩, [65, 67], 0⟩] ∧
      (res.CalcResults.length : Int) = 18 := by
  have h := worker_result counterLib 2 1000 3
    [⟨2, 3, ⟨0⟩, ⟨⟨0, 1⟩, ⟨0, 1⟩⟩, [65, 67], 0⟩, ⟨1, 3, ⟨0⟩, ⟨⟨0, 1⟩, ⟨0, 1⟩⟩, [65, 67], 0⟩]
    0 (by decide) (by decide)
  obtain ⟨res, w', hw⟩ := h.2.1.mpr (Or.inr (by decide))
  have h3 := h.2.2.1 res w' hw
  exact ⟨by decide, by decide, h.1, res, w', hw, h3.1, by simpa using h3.2⟩

end Simu2

/-! ## The output file of `popsimu2` -/

namespace Simu2

/-- After `init` the only file is empty and closed, the package variable `outfile` is
still `nil`, and `encoder` writes to the closed file. -/
theorem init_state (F : Type) :
    init true (Proc.start F) = some ⟨[⟨[], true⟩], none, some 0⟩ := by
  simp [init, Proc.start, osCreate, fileClose, List.modify]

/-- On the state `init` leaves, writing a Result panics and leaves the file empty. -/
theorem writeResult_after_init {F : Type} (res : Results F) :
    writeResult res (⟨[⟨[], true⟩], none, some 0⟩ : Proc F) =
      .error ⟨[⟨[], true⟩], none, some 0⟩ := by
  simp [writeResult, fileWrite, fileSyncFails]

/-- C7 does not hold of the code. Whatever Results arrive and in whatever order, the
result loop of `main` panics on the first one, at `outfile.Sync()` on the `nil` package
variable, and the file, closed since `init`, has not received it: no Result is written.
In particular the run of `popsimu2` with one worker on two sweeps with one value per
axis (one job), at 1 replicate of 1 chunk of 1000 generations, ends in this panic with
an empty file, for every behaviour of the library. -/
theorem main_panics_on_first_result {σ P G : Type} [Inhabited P] (lib : Lib σ P G Nat)
    (w : σ) :
    (∀ (F : Type) (res : Results F) (rest : List (Results F)),
      (init true (Proc.start F)).map (resultLoop (res :: rest)) =
        some (.error ⟨[⟨[], true⟩], none, some 0⟩)) ∧
    generatePopConfigs (F := Nat) [⟨[2], [3], [0], [0], [1], [0], [1], [65, 67]⟩,
        ⟨[1], [3], [0], [0], [1], [0], [1], [65, 67]⟩] =
      [[⟨2, 3, ⟨0⟩, ⟨⟨0, 1⟩, ⟨0, 1⟩⟩, [65, 67], 0⟩,
        ⟨1, 3, ⟨0⟩, ⟨⟨0, 1⟩, ⟨0, 1⟩⟩, [65, 67], 0⟩]] ∧
    mainOneWorker lib 1 1000 1 true
        [⟨[2], [3], [0], [0], [1], [0], [1], [65, 67]⟩,
          ⟨[1], [3], [0], [0], [1], [0], [1], [65, 67]⟩] w =
      .error ⟨[⟨[], true⟩], none, some 0⟩ := by
  have hgen : generatePopConfigs (F := Nat) [⟨[2], [3], [0], [0], [1], [0], [1], [65, 67]⟩,
        ⟨[1], [3], [0], [0], [1], [0], [1], [65, 67]⟩] =
      [[⟨2, 3, ⟨0⟩, ⟨⟨0, 1⟩, ⟨0, 1⟩⟩, [65, 67], 0⟩,
        ⟨1, 3, ⟨0⟩, ⟨⟨0, 1⟩, ⟨0, 1⟩⟩, [65, 67], 0⟩]] := by decide
  refine ⟨?_, hgen, ?_⟩
  · intro F res rest
    rw [init_state]
    simp only [Option.map_some', resultLoop, writeResult_after_init]
  · obtain ⟨res, w', hw⟩ := worker_some lib 1 1000 1
      [⟨2, 3, ⟨0⟩, ⟨⟨0, 1⟩, ⟨0, 1⟩⟩, [65, 67], 0⟩, ⟨1, 3, ⟨0⟩, ⟨⟨0, 1⟩, ⟨0, 1⟩⟩, [65, 67], 0⟩]
      w (by decide)
    simp only [mainOneWorker, init_state, hgen, List.foldl_cons, List.foldl_nil, hw,
      writeResult_after_init]

end Simu2

/-! ## The event stream of `runOnePop` -/

namespace Pop

/-- The inner loop of the goroutine appends one result of `Emit` per round and counts
the calls. -/
theorem emitLoop_eq {R Q : Type} [LinearOrderedField R] (cands : List (Event R Q))
    (uniform : Nat → R) (count : Nat) (sent : List (Option (Event R Q))) (n : Nat) :
    (List.range count).foldl (fun (st : List (Option (Event R Q)) × Nat) _ =>
      (st.1 ++ [Emit cands (uniform st.2)], st.2 + 1)) (sent, n) =
    (sent ++ (List.range count).map (fun c => Emit cands (uniform (n + c))), n + count) := by
  induction count with
  | zero => simp
  | succ count ih =>
    rw [List.range_succ, List.foldl_append, ih]
    simp [List.append_assoc, Nat.add_assoc]

/-- The loop of the goroutine sends the blocks of the generations in order. -/
theorem generationLoop_eq {R Q : Type} [LinearOrderedField R] (fl : FloatOps R) (p : Q)
    (genomeLen : Int)
    (mutRate traRate : R) (frag : Int) (draws : Draws R) (n : Nat) :
    (List.range n).foldl (fun (st : List (Option (Event R Q)) × Nat) k =>
      let sent := st.1 ++ [some (moranEvent p)]
      let count := draws.poisson (poissonMean fl genomeLen mutRate traRate) k
      (List.range count).foldl (fun (st : List (Option (Event R Q)) × Nat) _ =>
        (st.1 ++ [Emit [mutationEvent p mutRate, transferEvent p traRate frag]
          (draws.uniform st.2)], st.2 + 1)) (sent, st.2)) ([], 0) =
    ((List.range n).flatMap (generationBlock fl p genomeLen mutRate traRate frag draws),
      emitCallsBefore draws (poissonMean fl genomeLen mutRate traRate) n) := by
  induction n with
  | zero => simp [emitCallsBefore]
  | succ n ih =>
    rw [List.range_succ, List.foldl_append, ih]
    simp only [List.foldl_cons, List.foldl_nil]
    rw [emitLoop_eq]
    simp [generationBlock, emitCallsBefore, List.range_succ, List.append_assoc]

/-- With rates that do not add up to zero, `Emit` on two candidates returns
the first when the uniform value is below its share, and the second otherwise. -/
theorem Emit_pair {R Q : Type} [LinearOrderedField R] (a b : Event R Q) (u : R)
    (hne : a.Rate + b.Rate ≠ 0) (hu0 : 0 ≤ u) (hu1 : u < 1) :
    Emit [a, b] u = if u < a.Rate / (a.Rate + b.Rate) then some a else some b := by
  have htot : (List.map (fun e => e.Rate) [a, b]).sum = a.Rate + b.Rate := by simp
  unfold Emit
  rw [htot]
  simp only [emitFrom, zero_add, zero_div, hu0, true_and, div_self hne, hu1, and_true]
  by_cases h : u < a.Rate / (a.Rate + b.Rate)
  · simp [h]
  · simp [h, not_lt.mp h]

/-- What comes out of `Emit` is `nil` or one of the candidates. -/
theorem emitFrom_mem {R Q : Type} [LinearOrderedField R] (total u : R)
    (events : List (Event R Q)) (acc : R) (e : Event R Q)
    (h : emitFrom total u events acc = some e) : e ∈ events := by
  induction events generalizing acc with
  | nil => simp [emitFrom] at h
  | cons x xs ih =>
    simp only [emitFrom] at h
    split at h
    · simp only [Option.some.injEq] at h
      subst h
      exact List.mem_cons_self _ _
    · exact List.mem_cons_of_mem _ (ih _ h)

/-- No molecular event is the Moran event. -/
theorem Emit_ne_moran {R Q : Type} [LinearOrderedField R] (p : Q) (mutRate traRate : R)
    (frag : Int) (u : R) :
    Emit [mutationEvent p mutRate, transferEvent p traRate frag] u ≠ some (moranEvent p) := by
  intro h
  have hm := emitFrom_mem _ _ _ _ _ h
  simp only [List.mem_cons, List.mem_singleton, List.not_mem_nil, or_false] at hm
  rcases hm with hm | hm
  · have := congrArg Event.Ops hm
    simp [moranEvent, mutationEvent] at this
  · have := congrArg Event.Ops hm
    simp [moranEvent, transferEvent] at this

end Pop

namespace Pop

/-- Every molecular event of a block is the mutation event or the transfer event when
the two rates do not add up to zero and the uniform values lie in `[0, 1)`. -/
theorem molecular_of_mem_block {R Q : Type} [LinearOrderedField R] (fl : FloatOps R) (p : Q)
    (genomeLen : Int) (mutRate traRate : R) (frag : Int) (draws : Draws R)
    (hrate : mutRate + traRate ≠ 0) (hu : ∀ n, 0 ≤ draws.uniform n ∧ draws.uniform n < 1)
    (g : Nat) :
    ∀ e ∈ (generationBlock fl p genomeLen mutRate traRate frag draws g).tail,
      e = some (mutationEvent p mutRate) ∨ e = some (transferEvent p traRate frag) := by
  intro e he
  simp only [generationBlock, List.tail_cons, List.mem_map, List.mem_range] at he
  obtain ⟨c, -, rfl⟩ := he
  rw [Emit_pair _ _ _ hrate (hu _).1 (hu _).2]
  split
  · exact Or.inl rfl
  · exact Or.inr rfl

/-- One more generation adds its Poisson count to the number of calls of `Emit`. -/
theorem emitCallsBefore_succ {R : Type} (draws : Draws R) (mean : R) (n : Nat) :
    emitCallsBefore draws mean (n + 1) = emitCallsBefore draws mean n + draws.poisson mean n := by
  simp [emitCallsBefore, List.range_succ]

/-- The number of events of the first `n` blocks. -/
theorem length_blocks {R Q : Type} [LinearOrderedField R] (fl : FloatOps R) (p : Q)
    (genomeLen : Int)
    (mutRate traRate : R) (frag : Int) (draws : Draws R) (n : Nat) :
    ((List.range n).flatMap (generationBlock fl p genomeLen mutRate traRate frag draws)).length =
      n + emitCallsBefore draws (poissonMean fl genomeLen mutRate traRate) n := by
  induction n with
  | zero => simp [emitCallsBefore]
  | succ n ih =>
    rw [List.range_succ, List.flatMap_append, List.length_append, ih, emitCallsBefore_succ]
    simp only [List.flatMap_cons, List.flatMap_nil, List.append_nil, generationBlock,
      List.length_cons, List.length_map, List.length_range]
    omega

/-- Each block holds the Moran event once. -/
theorem count_moran_blocks {R Q : Type} [LinearOrderedField R] [DecidableEq Q]
    (fl : FloatOps R) (p : Q) (genomeLen : Int) (mutRate traRate : R) (frag : Int) (draws : Draws R) (gs : List Nat) :
    (gs.flatMap (generationBlock fl p genomeLen mutRate traRate frag draws)).count
      (some (moranEvent p)) = gs.length := by
  induction gs with
  | nil => simp
  | cons g gs ih =>
    rw [List.flatMap_cons, List.count_append, ih]
    have h0 : ((List.range (draws.poisson (poissonMean fl genomeLen mutRate traRate) g)).map
        fun c => Emit [mutationEvent p mutRate, transferEvent p traRate frag]
          (draws.uniform (emitCallsBefore draws (poissonMean fl genomeLen mutRate traRate) g + c))
        ).count (some (moranEvent p)) = 0 := by
      rw [List.count_eq_zero]
      intro hmem
      rw [List.mem_map] at hmem
      obtain ⟨c, -, hc⟩ := hmem
      exact Emit_ne_moran p mutRate traRate frag _ hc
    simp only [generationBlock, List.count_cons_self, h0, List.length_cons]
    omega

/-- Whatever the rates and the uniform value, what `Emit` returns for a molecular event is
`nil`, the mutation event or the transfer event. -/
theorem molecular_or_nil {R Q : Type} [LinearOrderedField R] (fl : FloatOps R) (p : Q)
    (genomeLen : Int) (mutRate traRate : R) (frag : Int) (draws : Draws R) (g : Nat) :
    ∀ e ∈ (generationBlock fl p genomeLen mutRate traRate frag draws g).tail,
      e = none ∨ e = some (mutationEvent p mutRate) ∨
        e = some (transferEvent p traRate frag) := by
  intro e he
  simp only [generationBlock, List.tail_cons, List.mem_map, List.mem_range] at he
  obtain ⟨c, -, rfl⟩ := he
  cases h : Emit [mutationEvent p mutRate, transferEvent p traRate frag]
      (draws.uniform (emitCallsBefore draws (poissonMean fl genomeLen mutRate traRate) g + c))
    with
  | none => exact Or.inl rfl
  | some ev =>
    have hm := emitFrom_mem _ _ _ _ _ h
    simp only [List.mem_cons, List.mem_singleton, List.not_mem_nil, or_false] at hm
    rcases hm with rfl | rfl
    · exact Or.inr (Or.inl rfl)
    · exact Or.inr (Or.inr rfl)

/-- C9. For every `numGen ≥ 0`, all rates and every sequence of Poisson counts
`k_0, k_1, ...`, the stream `runOnePop` feeds to `Evolve` is the sequence of the `numGen`
generation blocks, the block of generation `g` being the Moran event followed by exactly
`k_g` results of `Emit` on the candidates `{mutationEvent, transferEvent}`, the counts
being drawn with the mean `float64(genomeLen) * (mutRate + traRate)`. Each of these
results is `nil`, the mutation event or the transfer event, and it is one of the two
events when the two rates do not add up to zero and the uniform values lie in `[0, 1)`.
Every event of the stream is bound to the same population, the stream has
`numGen + sum(k_g)` events, and exactly `numGen` of them are Moran events. -/
theorem eventStream_blocks {R Q : Type} [LinearOrderedField R] [DecidableEq Q]
    (fl : FloatOps R) (p : Q) (genomeLen : Int) (mutRate traRate : R) (frag numGen : Int)
    (draws : Draws R) (hgen : 0 ≤ numGen) :
    eventStream fl p genomeLen mutRate traRate frag numGen draws =
      (List.range numGen.toNat).flatMap
        (generationBlock fl p genomeLen mutRate traRate frag draws) ∧
    (∀ g, generationBlock fl p genomeLen mutRate traRate frag draws g =
      some (moranEvent p) ::
        (List.range
          (draws.poisson (fl.mul (fl.ofInt genomeLen) (fl.add mutRate traRate)) g)).map
          fun c =>
            Emit [mutationEvent p mutRate, transferEvent p traRate frag]
              (draws.uniform
                (((List.range g).map
                  (draws.poisson (fl.mul (fl.ofInt genomeLen) (fl.add mutRate traRate)))).sum
                  + c))) ∧
    (∀ g, ∀ e ∈ (generationBlock fl p genomeLen mutRate traRate frag draws g).tail,
      e = none ∨ e = some (mutationEvent p mutRate) ∨
        e = some (transferEvent p traRate frag)) ∧
    (mutRate + traRate ≠ 0 → (∀ n, 0 ≤ draws.uniform n ∧ draws.uniform n < 1) →
      ∀ g, ∀ e ∈ (generationBlock fl p genomeLen mutRate traRate frag draws g).tail,
        e = some (mutationEvent p mutRate) ∨ e = some (transferEvent p traRate frag)) ∧
    (∀ e ∈ eventStream fl p genomeLen mutRate traRate frag numGen draws,
      ∀ ev : Event R Q, e = some ev → ev.Pop = p ∧
        (ev = moranEvent p ∨ ev = mutationEvent p mutRate ∨
          ev = transferEvent p traRate frag)) ∧
    ((eventStream fl p genomeLen mutRate traRate frag numGen draws).length : Int) =
      numGen + (((List.range numGen.toNat).map
        (draws.poisson (fl.mul (fl.ofInt genomeLen) (fl.add mutRate traRate)))).sum : Nat) ∧
    (((eventStream fl p genomeLen mutRate traRate frag numGen draws).count
      (some (moranEvent p)) : Nat) : Int) = numGen := by
  have hstream : eventStream fl p genomeLen mutRate traRate frag numGen draws =
      (List.range numGen.toNat).flatMap
        (generationBlock fl p genomeLen mutRate traRate frag draws) := by
    unfold eventStream
    rw [generationLoop_eq]
    rfl
  have hnil := molecular_or_nil fl p genomeLen mutRate traRate frag draws
  have hn : ((numGen.toNat : Nat) : Int) = numGen := Int.toNat_of_nonneg hgen
  refine ⟨hstream, fun g => rfl, hnil,
    fun hrate hu => molecular_of_mem_block fl p genomeLen mutRate traRate frag draws hrate hu,
    ?_, ?_, ?_⟩
  · intro e he ev hev
    rw [hstream, List.mem_flatMap] at he
    obtain ⟨g, -, hg⟩ := he
    have hcases : e = some (moranEvent p) ∨
        e ∈ (generationBlock fl p genomeLen mutRate traRate frag draws g).tail := by
      simp only [generationBlock, List.mem_cons] at hg
      simpa only [generationBlock, List.tail_cons] using hg
    subst hev
    rcases hcases with h | ht
    · simp only [Option.some.injEq] at h
      subst h
      exact ⟨rfl, Or.inl rfl⟩
    · rcases hnil g _ ht with h | h | h
      · exact absurd h (by simp)
      · simp only [Option.some.injEq] at h
        subst h
        exact ⟨rfl, Or.inr (Or.inl rfl)⟩
      · simp only [Option.some.injEq] at h
        subst h
        exact ⟨rfl, Or.inr (Or.inr rfl)⟩
  · rw [hstream, length_blocks, Nat.cast_add, hn]
    rfl
  · rw [hstream, count_moran_blocks, List.length_range, hn]

/-- Two streams. At rates 1/100 and 1/1000, uniform values 1/2 and Poisson counts 1 and 2,
the stream of two generations has five events, two of them Moran events, and every
molecular event is the mutation event or the transfer event. At rates 0 and 0 and
Poisson counts 0 the stream of three generations is the Moran event three times. -/
theorem eventStream_blocks_witness :
    ((0 : Int) ≤ 2 ∧
      ((eventStream exactOps (0 : Nat) 100 ((1 : ℚ) / 100) (1 / 1000) 10 2
        ⟨fun _ g => [1, 2].getD g 0, fun _ => 1 / 2⟩).length : Int) = 5 ∧
      (((eventStream exactOps (0 : Nat) 100 ((1 : ℚ) / 100) (1 / 1000) 10 2
        ⟨fun _ g => [1, 2].getD g 0, fun _ => 1 / 2⟩).count (some (moranEvent 0)) : Nat)
          : Int) = 2 ∧
      ∀ g, ∀ e ∈ (generationBlock exactOps (0 : Nat) 100 ((1 : ℚ) / 100) (1 / 1000) 10
          ⟨fun _ g => [1, 2].getD g 0, fun _ => 1 / 2⟩ g).tail,
        e = some (mutationEvent 0 (1 / 100)) ∨ e = some (transferEvent 0 (1 / 1000) 10)) ∧
    ((0 : Int) ≤ 3 ∧
      eventStream exactOps (0 : Nat) 100 (0 : ℚ) 0 10 3 ⟨fun _ _ => 0, fun _ => 1 / 2⟩ =
        [some (moranEvent 0), some (moranEvent 0), some (moranEvent 0)]) := by
  have h := eventStream_blocks exactOps (0 : Nat) 100 ((1 : ℚ) / 100) (1 / 1000) 10 2
    ⟨fun _ g => [1, 2].getD g 0, fun _ => 1 / 2⟩ (by decide)
  have h0 := eventStream_blocks exactOps (0 : Nat) 100 (0 : ℚ) 0 10 3
    ⟨fun _ _ => 0, fun _ => 1 / 2⟩ (by decide)
  refine ⟨⟨by decide, ?_, h.2.2.2.2.2.2,
    h.2.2.2.1 (by norm_num) (fun _ => by norm_num)⟩, by decide, ?_⟩
  · have h5 := h.2.2.2.2.2.1
    simpa [List.range_succ] using h5
  · rw [h0.1]
    simp [generationBlock, List.range_succ, List.flatMap_cons]

end Pop

end Popsimu
